import Mathlib

/-!
Verification of the SEFS ("Semantic Entropy File System") backend core.

This file gives a shallow embedding, in Lean 4, of the parts of the SEFS
backend relevant to the specification's claims: the clustering engine's
noise reassignment (`app/clusterer.py`), the embedding adapter
(`app/embedder.py`), the extractor (`app/extractor.py`), the ingestion
and removal pipeline (`app/pipeline.py`), the sync engine (`app/sync.py`)
and the recluster scheduler (`app/main.py`).

Modelling conventions:
  * Python floats are idealised as exact rationals (`ℚ`); float literals
    such as `0.40`, `0.52` and `1e-10` are read as the rationals they
    denote.  Real-valued quantities (cosine similarities, which involve
    square roots) are compared through exact rational decision procedures,
    proved equivalent to the real-number comparisons they implement.
  * External libraries (HDBSCAN, scikit-learn's agglomerative clustering,
    UMAP/PCA, the embedding/LLM providers, PyMuPDF/chardet/docx/pandas,
    SHA-256) are uninterpreted oracle parameters, as the specification
    places them out of scope.
  * The filesystem is a partial map from path strings to byte lists (for
    the extractor) or a list of existing path strings (for sync/pipeline);
    `Path.resolve` is the identity on the canonical path strings used.
  * Async state (SQLite store, event log) is threaded explicitly.
-/

/- ### Exact comparison kit for quotients involving square roots

The Python code compares cosine similarities, which are real numbers of the
shape `d / (sqrt p + e)` with `d`, `p`, `e` rational.  The following Boolean
deciders perform those comparisons exactly over `ℚ`, and are proved to agree
with the real-number comparisons. -/

/-- Decides `b * sqrt y < q` (for `0 ≤ y`). -/
def sqrtMulLT (b y q : ℚ) : Bool :=
  if 0 ≤ b then decide (0 < q) && decide (b ^ 2 * y < q ^ 2)
  else decide (0 < q) || (decide (q ≤ 0) && decide (q ^ 2 < b ^ 2 * y))

/-- Decides `q < b * sqrt y` (for `0 ≤ y`). -/
def ratLTsqrtMul (q b y : ℚ) : Bool :=
  if 0 ≤ b then decide (q < 0) || (decide (0 ≤ q) && decide (q ^ 2 < b ^ 2 * y))
  else decide (q < 0) && decide (b ^ 2 * y < q ^ 2)

/-- Decides `a * sqrt x < b * sqrt y + c` (for `0 ≤ x`, `0 ≤ y`). -/
def ltSqrtAdd (a x b y c : ℚ) : Bool :=
  if a ≤ 0 ∨ x = 0 then
    if ratLTsqrtMul (-c) b y then true
    else sqrtMulLT (2 * b * c) y (a ^ 2 * x - b ^ 2 * y - c ^ 2)
  else
    if ratLTsqrtMul (-c) b y then
      ratLTsqrtMul (a ^ 2 * x - b ^ 2 * y - c ^ 2) (2 * b * c) y
    else false

/- ### Similarity values `d / (sqrt p + eps)` -/

/-- Decides `d1 / (sqrt p1 + eps) < d2 / (sqrt p2 + eps)` (for `0 ≤ p1`, `0 ≤ p2`,
positive denominators). -/
def simLTpair (eps d1 p1 d2 p2 : ℚ) : Bool :=
  ltSqrtAdd d1 p2 d2 p1 ((d2 - d1) * eps)

/-- Decides `t ≤ d / (sqrt p + eps)` (for `0 ≤ p`, positive denominator). -/
def simGEpair (eps d p t : ℚ) : Bool :=
  ! ltSqrtAdd d 1 t p (t * eps)

/- ### Vector operations (numpy over rationals) -/

/-- A (variable-length) embedding vector. -/
abbrev Vec := List ℚ

/-- `np.dot` of two vectors. -/
def dotQ (e c : Vec) : ℚ := (List.zipWith (· * ·) e c).sum

/-- Squared L2 norm: `np.linalg.norm(e) ** 2` as an exact rational. -/
def normSq (e : Vec) : ℚ := dotQ e e

/-- Componentwise vector sum (`numpy +`; rows of equal length in practice). -/
def addVec (a b : Vec) : Vec := List.zipWith (· + ·) a b

/-- Scalar multiple of a vector. -/
def scaleVec (q : ℚ) (v : Vec) : Vec := v.map (fun x => q * x)

/-- `np.mean(vs, axis=0)`: arithmetic mean of a nonempty list of vectors. -/
def meanVec (vs : List Vec) : Vec :=
  match vs with
  | [] => []
  | v :: rest => scaleVec (1 / ((rest.length + 1 : ℕ) : ℚ)) (rest.foldl addVec v)

/-- `np.any(v)`: true iff some component is nonzero. -/
def anyNonzero (v : Vec) : Bool := v.any (fun x => x ≠ 0)

/-- Pad with zeros (`np.pad`) or truncate a vector to length `n`
(the pipeline's dimension reconciliation). -/
def padTruncate (v : Vec) (n : ℕ) : Vec :=
  if v.length < n then v ++ List.replicate (n - v.length) 0 else v.take n

/- ### Clusterer (app/clusterer.py) -/

/-- `MIN_FILES_FOR_CLUSTERING = 3`. -/
def MIN_FILES_FOR_CLUSTERING : ℕ := 3

/-- `NOISE_SIMILARITY_THRESHOLD = 0.40`. -/
def NOISE_SIMILARITY_THRESHOLD : ℚ := 2 / 5

/-- `SMALL_COLLECTION_THRESHOLD = 25`. -/
def SMALL_COLLECTION_THRESHOLD : ℕ := 25

/-- The `1e-10` guard added to the denominator of the cosine similarity in
`_assign_noise_smart`. -/
def noiseSimEps : ℚ := 1 / 10 ^ 10

/-- Oracles for the external clustering libraries used by `clusterer.py`:
HDBSCAN, scikit-learn agglomerative clustering, UMAP and PCA (all out of
scope for the specification).  `none` models the library call raising. -/
structure ClusterOracles where
  hdbscanO : List Vec → Option (List ℤ)
  skAggO : List Vec → Option (List ℤ)
  umapO : List Vec → Option (List (ℚ × ℚ))
  pcaO : List Vec → List (ℚ × ℚ)
  circleO : ℕ → List (ℚ × ℚ)

/-- Insertion of an integer into a sorted list (ascending). -/
def insertSorted (x : ℤ) : List ℤ → List ℤ
  | [] => [x]
  | y :: ys => if x ≤ y then x :: y :: ys else y :: insertSorted x ys

/-- Ascending insertion sort, used to model Python's `sorted` and
`np.unique` orderings. -/
def sortInts (l : List ℤ) : List ℤ := l.foldr insertSorted []

/-- `_simple_2d`: fixed 2D layout for very small collections.  The `n ≥ 3`
circle layout uses `np.cos`/`np.sin` (irrational values) and is abstracted by
`circleO`; `cluster_embeddings` only calls `_simple_2d` with `n < 3`. -/
def simple_2d (O : ClusterOracles) (embeddings : List Vec) : List (ℚ × ℚ) :=
  if embeddings.length ≤ 1 then [(0, 0)]
  else if embeddings.length = 2 then [(0, 0), (1, 0)]
  else O.circleO embeddings.length

/-- `_agglomerative_fallback`: sklearn agglomerative labels (oracle), then
demote singleton clusters to `-1`, then renumber the surviving labels to a
contiguous range from 0 (in sorted order, as `sorted(set(labels) - {-1})`).
A library exception yields `np.zeros(n)`. -/
def agglomerative_fallback (O : ClusterOracles) (embeddings : List Vec) : List ℤ :=
  match O.skAggO embeddings with
  | none => List.replicate embeddings.length 0
  | some raw =>
      let demoted := raw.map (fun l => if raw.count l = 1 then -1 else l)
      let uniq := sortInts ((demoted.filter (fun l => l ≠ -1)).dedup)
      demoted.map (fun l => if l = -1 then -1 else (List.indexOf l uniq : ℤ))

/-- `_run_hdbscan`: HDBSCAN labels (oracle; it receives L2-normalised copies
of the embeddings, which we leave to the oracle); on exception, fall back to
agglomerative clustering. -/
def run_hdbscan (O : ClusterOracles) (embeddings : List Vec) : List ℤ :=
  match O.hdbscanO embeddings with
  | some labels => labels
  | none => agglomerative_fallback O embeddings

/-- Embeddings of the members of cluster `cid` (`embeddings[labels == cid]`). -/
def cluster_members (labels : List ℤ) (embeddings : List Vec) (cid : ℤ) : List Vec :=
  (labels.zip embeddings).filterMap (fun p => if p.1 = cid then some p.2 else none)

/-- `np.unique(labels[labeled_mask])`: sorted distinct non-noise labels. -/
def nonNoiseIds (labels : List ℤ) : List ℤ :=
  sortInts ((labels.filter (fun l => l ≠ -1)).dedup)

/-- One iteration of the best-centroid loop of `_assign_noise_smart`.
A similarity value `sim = d / (sqrt p + 1e-10)` is carried exactly as the
pair `(d, p)`; the running best starts at `-1 = (-1e-10) / (sqrt 0 + 1e-10)`. -/
def best_centroid_step (e : Vec) (best : ℚ × ℚ × ℤ) (cc : ℤ × Vec) : ℚ × ℚ × ℤ :=
  let d := dotQ e cc.2
  let p := normSq e * normSq cc.2
  if simLTpair noiseSimEps best.1 best.2.1 d p then (d, p, cc.1) else best

/-- The `best_sim = -1; best_cid = -1` loop of `_assign_noise_smart`. -/
def best_centroid (e : Vec) (cents : List (ℤ × Vec)) : ℚ × ℚ × ℤ :=
  cents.foldl (best_centroid_step e) (-noiseSimEps, 0, -1)

/-- `_assign_noise_smart`: assign each noise point to its nearest non-noise
centroid iff the (guarded) cosine similarity reaches
`NOISE_SIMILARITY_THRESHOLD`; if there is no noise return unchanged; if all
points are noise return `np.zeros_like(labels)`. -/
def assign_noise_smart (labels : List ℤ) (embeddings : List Vec) : List ℤ :=
  if labels.all (fun l => l ≠ -1) then labels
  else if labels.all (fun l => l = -1) then labels.map (fun _ => 0)
  else
    let cids := nonNoiseIds labels
    let cents := cids.map (fun c => (c, meanVec (cluster_members labels embeddings c)))
    List.zipWith
      (fun l e =>
        if l = -1 then
          let b := best_centroid e cents
          if simGEpair noiseSimEps b.1 b.2.1 NOISE_SIMILARITY_THRESHOLD then b.2.2 else -1
        else l)
      labels embeddings

/-- The labels entering `_assign_noise_smart` on the HDBSCAN branch of
`cluster_embeddings`: HDBSCAN output, or the agglomerative fallback when
HDBSCAN returned only noise. -/
def hdbscan_base_labels (O : ClusterOracles) (embeddings : List Vec) : List ℤ :=
  let l0 := run_hdbscan O embeddings
  if l0.all (fun l => l = -1) then agglomerative_fallback O embeddings else l0

/-- `_umap_2d`: UMAP projection (oracle), PCA fallback on exception. -/
def umap_2d (O : ClusterOracles) (embeddings : List Vec) : List (ℚ × ℚ) :=
  match O.umapO embeddings with
  | some cs => cs
  | none => O.pcaO embeddings

/-- `cluster_embeddings`: the clusterer's entry point.  Note that the smart
noise reassignment runs only on the HDBSCAN branch
(`n > SMALL_COLLECTION_THRESHOLD`). -/
def cluster_embeddings (O : ClusterOracles) (embeddings : List Vec) :
    List ℤ × List (ℚ × ℚ) :=
  let n := embeddings.length
  if n < MIN_FILES_FOR_CLUSTERING then
    (List.replicate n 0, simple_2d O embeddings)
  else
    let labels :=
      if n ≤ SMALL_COLLECTION_THRESHOLD then
        agglomerative_fallback O embeddings
      else
        assign_noise_smart (hdbscan_base_labels O embeddings) embeddings
    (labels, umap_2d O embeddings)

/- ### Specification-level similarity predicates (real-valued) -/

/-- The guarded cosine similarity of `_assign_noise_smart`
(`np.dot(emb, centroid) / (norm(emb) * norm(centroid) + 1e-10)`) reaches the
threshold `0.40`. -/
def noiseSimGEthreshold (e c : Vec) : Prop :=
  (NOISE_SIMILARITY_THRESHOLD : ℝ) ≤
    (dotQ e c : ℝ) /
      (Real.sqrt ((normSq e : ℚ) : ℝ) * Real.sqrt ((normSq c : ℚ) : ℝ) + (noiseSimEps : ℝ))

/-- The guarded cosine similarity to `c` is at most that to `c'`. -/
def noiseSimLE (e c c' : Vec) : Prop :=
  (dotQ e c : ℝ) /
      (Real.sqrt ((normSq e : ℚ) : ℝ) * Real.sqrt ((normSq c : ℚ) : ℝ) + (noiseSimEps : ℝ)) ≤
    (dotQ e c' : ℝ) /
      (Real.sqrt ((normSq e : ℚ) : ℝ) * Real.sqrt ((normSq c' : ℚ) : ℝ) + (noiseSimEps : ℝ))

/-- The plain cosine similarity used by `try_incremental_assign`
(`np.dot(emb, cent) / (norm(emb) * norm(cent))`) reaches threshold `t`. -/
def cosSimGE (e c : Vec) (t : ℚ) : Prop :=
  (t : ℝ) ≤ (dotQ e c : ℝ) /
    (Real.sqrt ((normSq e : ℚ) : ℝ) * Real.sqrt ((normSq c : ℚ) : ℝ))

/-- Plain cosine similarity to `c` is at most that to `c'`. -/
def cosSimLE (e c c' : Vec) : Prop :=
  (dotQ e c : ℝ) / (Real.sqrt ((normSq e : ℚ) : ℝ) * Real.sqrt ((normSq c : ℚ) : ℝ)) ≤
    (dotQ e c' : ℝ) / (Real.sqrt ((normSq e : ℚ) : ℝ) * Real.sqrt ((normSq c' : ℚ) : ℝ))

/- ### Invariants of the best-centroid loop of `_assign_noise_smart` -/

/-- Comparison of the exact similarity values carried by pairs `(d, p, cid)`
in the best-centroid loops: `d / (sqrt p + eps)`. -/
def pairLE (eps : ℚ) (a b : ℚ × ℚ × ℤ) : Prop :=
  (a.1 : ℝ) / (Real.sqrt ((a.2.1 : ℚ) : ℝ) + (eps : ℝ)) ≤
    (b.1 : ℝ) / (Real.sqrt ((b.2.1 : ℚ) : ℝ) + (eps : ℝ))

/-- The pair recording the similarity of point `e` to centroid entry `cc`. -/
def simPairOf (e : Vec) (cc : ℤ × Vec) : ℚ × ℚ × ℤ :=
  (dotQ e cc.2, normSq e * normSq cc.2, cc.1)

/-- Centroid of a (base-label) cluster, as computed by `_assign_noise_smart`. -/
def noise_centroid (labels : List ℤ) (embs : List Vec) (c : ℤ) : Vec :=
  meanVec (cluster_members labels embs c)

/-- The `(cid, centroid)` list iterated by `_assign_noise_smart`. -/
def noise_cents (labels : List ℤ) (embs : List Vec) : List (ℤ × Vec) :=
  (nonNoiseIds labels).map (fun c => (c, noise_centroid labels embs c))

/-- Concrete embedding matrix for the C2 counterexample: four rows, so the
small-collection (agglomerative) branch of `cluster_embeddings` is taken. -/
def c2E : List Vec := [[1, 0], [1, 0], [8, 15], [-1, 0]]

/-- Oracles for the C2 counterexample.  The agglomerative oracle returns the
labels sklearn produces on `c2E` with average linkage at distance threshold
0.52: rows 0 and 1 coincide (distance 0) and merge; row 2 is at cosine
distance `1 - 8/17 ≈ 0.53 ≥ 0.52` from them and stays a singleton; row 3 is
opposite to rows 0-1.  Hence `[0, 0, 1, 2]`. -/
def c2O : ClusterOracles :=
  { hdbscanO := fun _ => none
    skAggO := fun _ => some [0, 0, 1, 2]
    umapO := fun _ => none
    pcaO := fun _ => []
    circleO := fun _ => [] }

/-- 26 one-dimensional embeddings: a concrete input on the density-based
branch, used to witness the amended C2 theorem. -/
def c2wE : List Vec := List.replicate 26 [1]

/-- Oracles for the C2 witness: HDBSCAN returns all points in cluster 0. -/
def c2wO : ClusterOracles :=
  { hdbscanO := fun _ => some (List.replicate 26 0)
    skAggO := fun _ => none
    umapO := fun _ => none
    pcaO := fun _ => []
    circleO := fun _ => [] }

/-- Oracles for the C10 counterexample and witness (library calls that all
fail over to their in-code fallbacks, with empty fallback outputs). -/
def c10O : ClusterOracles :=
  { hdbscanO := fun _ => none
    skAggO := fun _ => none
    umapO := fun _ => none
    pcaO := fun _ => []
    circleO := fun _ => [] }

/-- Oracles for the C10 witness: the PCA fallback returns one row per input
row, as the library contract guarantees. -/
def c10wO : ClusterOracles :=
  { hdbscanO := fun _ => none
    skAggO := fun _ => none
    umapO := fun _ => none
    pcaO := fun embs => embs.map (fun _ => (0, 0))
    circleO := fun _ => [] }

/- ### Metadata store records (app/db.py) -/

/-- `db.FileRecord`. -/
structure FileRec where
  id : ℤ := 0
  filename : String := ""
  original_path : String := ""
  current_path : String := ""
  content_hash : String := ""
  embedding : Option Vec := none
  umap_x : ℚ := 0
  umap_y : ℚ := 0
  cluster_id : ℤ := -1
  summary : String := ""
  file_type : String := ""
  size_bytes : ℤ := 0
  word_count : ℤ := 0
  page_count : ℤ := 0
  created_at : String := ""
  modified_at : String := ""
deriving DecidableEq, Repr

/-- `db.ClusterRecord`. -/
structure ClusterRec where
  id : ℤ := 0
  name : String := ""
  description : String := ""
  folder_path : String := ""
  centroid : Option Vec := none
  file_count : ℤ := 0
  created_at : String := ""
deriving DecidableEq, Repr

/-- `ff.embedding is not None and np.any(ff.embedding)`. -/
def hasNonzeroEmbedding (e : Option Vec) : Bool :=
  match e with
  | none => false
  | some v => anyNonzero v

/- ### Pipeline: incremental assignment (app/pipeline.py, try_incremental_assign) -/

/-- The `cluster_centroids` map built by `try_incremental_assign`: for each
cluster, the mean of the live member embeddings (excluding the file being
assigned), else the stored centroid when nonzero, else no entry. -/
def live_centroids (clusters : List ClusterRec) (files : List FileRec) (file_id : ℤ) :
    List (ℤ × Vec) :=
  clusters.filterMap (fun c =>
    let membEmbs := (files.filter (fun ff =>
      ff.cluster_id = c.id && ff.id ≠ file_id && hasNonzeroEmbedding ff.embedding)).filterMap
      (fun ff => ff.embedding)
    if membEmbs ≠ [] then some (c.id, meanVec membEmbs)
    else
      match c.centroid with
      | some cent => if anyNonzero cent then some (c.id, cent) else none
      | none => none)

/-- The pair recording the similarity of `emb` to a centroid entry after the
pad/truncate dimension reconciliation (no `1e-10` guard here; zero norms are
skipped instead). -/
def incrPairOf (emb : Vec) (cc : ℤ × Vec) : ℚ × ℚ × ℤ :=
  (dotQ emb (padTruncate cc.2 emb.length),
    normSq emb * normSq (padTruncate cc.2 emb.length), cc.1)

/-- One iteration of the best-cluster loop of `try_incremental_assign`:
reconcile dimensions, skip zero-norm products (`if norm == 0: continue`),
otherwise keep the larger similarity. -/
def incr_step (emb : Vec) (best : ℚ × ℚ × ℤ) (cc : ℤ × Vec) : ℚ × ℚ × ℤ :=
  let cent := padTruncate cc.2 emb.length
  let p := normSq emb * normSq cent
  if p = 0 then best
  else
    let d := dotQ emb cent
    if simLTpair 0 best.1 best.2.1 d p then (d, p, cc.1) else best

/-- The `best_sim = -1.0; best_cid = -1` loop; `-1 = -1 / (sqrt 1 + 0)`. -/
def best_cluster (emb : Vec) (cents : List (ℤ × Vec)) : ℚ × ℚ × ℤ :=
  cents.foldl (incr_step emb) (-1, 1, -1)

/-- The decision core of `try_incremental_assign` (pipeline.py lines
551-626): `none` models `return False` (full recluster needed); `some cid`
models `return True` after `db.update_file_cluster(file_id, cid)` assigned
the file to cluster `cid`.  The subsequent 2D-placement, folder move and
centroid refresh of the `True` branch act on the same `cid` and do not
change the decision. -/
def try_incremental_assign (clusters : List ClusterRec) (files : List FileRec)
    (file_id : ℤ) : Option ℤ :=
  if clusters = [] then none
  else
    match files.find? (fun x => x.id = file_id) with
    | none => none
    | some f =>
      match f.embedding with
      | none => none
      | some emb =>
        if ¬ anyNonzero emb then none
        else
          let cents := live_centroids clusters files file_id
          if cents = [] then none
          else
            let b := best_cluster emb cents
            if simGEpair 0 b.1 b.2.1 NOISE_SIMILARITY_THRESHOLD then some b.2.2 else none

/-- Concrete file record for the C6 witness. -/
def c6file : FileRec := { id := 1, embedding := some [1, 0] }

/-- Concrete store content for the C6 witness. -/
def c6files : List FileRec := [c6file]

/-- Concrete cluster list for the C6 witness: one cluster with stored
centroid `[1, 0]` and no live members. -/
def c6clusters : List ClusterRec := [{ id := 0, name := "A", centroid := some [1, 0] }]

/- ### Python string primitives

Python string operations modelled structurally over the character list of a
`String`, so they reduce in the kernel.  Slicing is by characters
(codepoints), as in Python.  `str.strip()` strips the standard whitespace
characters. -/

/-- Python `len(s)` (in characters). -/
def pyLength (s : String) : ℕ := s.data.length

/-- Python `s[:n]`. -/
def pyTake (s : String) (n : ℕ) : String := String.mk (s.data.take n)

/-- Python `s[-n:]` (for `n ≤ len(s)`; the last `n` characters). -/
def pyTakeRight (s : String) (n : ℕ) : String :=
  String.mk (s.data.drop (s.data.length - n))

/-- Python `s.strip()`. -/
def pyStrip (s : String) : String :=
  String.mk (((s.data.dropWhile Char.isWhitespace).reverse.dropWhile
    Char.isWhitespace).reverse)

/- ### Embedding adapter (app/embedder.py) -/

/-- `MAX_CHARS = 20000`. -/
def MAX_CHARS : ℕ := 20000

/-- `_truncate_text`: keep texts within the character budget; over budget,
keep the first and last `MAX_CHARS // 2` characters joined by `"\n...\n"`. -/
def truncate_text (text : String) : String :=
  if pyLength text ≤ MAX_CHARS then text
  else pyTake text (MAX_CHARS / 2) ++ "\n...\n" ++ pyTakeRight text (MAX_CHARS / 2)

/-- `get_embedding`: blank text gives a zero vector (no health mark); the
provider (oracle; `none` models the SDK call raising) is called on the
truncated text; its vector is returned unchanged on success and the provider
is marked healthy (`some true`); on failure a zero vector of the expected
dimension is returned and the provider is marked unhealthy (`some false`). -/
def get_embedding (provider : String → Option Vec) (expectedDim : ℕ) (text : String) :
    Vec × Option Bool :=
  if text = "" ∨ pyStrip text = "" then (List.replicate expectedDim 0, none)
  else
    match provider (truncate_text text) with
    | some emb => (emb, some true)
    | none => (List.replicate expectedDim 0, some false)

/-- `_fallback_summary`: strip, keep the first 200 characters, append
`"..."` when the stripped text is longer than 200 characters. -/
def fallback_summary (text : String) : String :=
  let clean := pyStrip text
  if clean = "" then ""
  else
    let snippet := pyTake clean 200
    if pyLength clean ≤ 200 then snippet else snippet ++ "..."

/-- `generate_summary`: short texts and provider failures fall back to
`_fallback_summary`; otherwise the LLM (oracle on the first 3000 characters;
`none` models the call raising) answer is truncated to 300 characters.  The
OpenAI path also falls back when the API key is empty. -/
def generate_summary (provider : String) (apiKey : String)
    (llm : String → Option String) (text : String) : String :=
  if text = "" ∨ pyLength (pyStrip text) < 50 then fallback_summary text
  else
    let snippet := pyTake text 3000
    if provider = "openai" then
      if apiKey = "" then fallback_summary text
      else
        match llm snippet with
        | some content => pyTake content 300
        | none => fallback_summary text
    else
      match llm snippet with
      | some content => pyTake content 300
      | none => fallback_summary text

/-- A 201-character text (201 repetitions of `a`), for the C9 counterexample. -/
def c9text : String := String.mk (List.replicate 201 'a')

/- ### Extractor (app/extractor.py) -/

/-- `Path.name`: the characters after the last `/`. -/
def pathName (p : String) : String :=
  String.mk ((p.data.reverse.takeWhile (fun c => c ≠ '/')).reverse)

/-- `Path.suffix` of a basename, as in `pathlib`: from the last dot, provided
it is neither the first nor the last character; else empty. -/
def pySuffix (name : String) : String :=
  let cs := name.data
  if '.' ∈ cs then
    let i := cs.length - 1 - cs.reverse.indexOf '.'
    if 0 < i ∧ i < cs.length - 1 then String.mk (cs.drop i) else ""
  else ""

/-- `Path(p).suffix`. -/
def path_suffix (p : String) : String := pySuffix (pathName p)

/-- Python `s.lower()`. -/
def pyLower (s : String) : String := String.mk (s.data.map Char.toLower)

/-- `_DOCUMENT_EXTENSIONS`. -/
def DOCUMENT_EXTENSIONS : List String :=
  [".pdf", ".txt", ".md", ".markdown", ".docx", ".csv", ".text", ".rst"]

/-- `_CODE_EXTENSIONS`. -/
def CODE_EXTENSIONS : List String :=
  [".py", ".pyi", ".pyw", ".js", ".mjs", ".cjs", ".jsx", ".ts", ".mts", ".cts",
   ".tsx", ".swift", ".java", ".kt", ".kts", ".c", ".h", ".cpp", ".cc", ".cxx",
   ".hpp", ".hxx", ".hh", ".cs", ".go", ".rs", ".rb", ".erb", ".php", ".scala",
   ".sbt", ".r", ".R", ".m", ".lua", ".pl", ".pm", ".dart", ".zig", ".v",
   ".nim", ".ex", ".exs", ".clj", ".cljs", ".cljc", ".edn", ".hs", ".lhs",
   ".erl", ".hrl", ".fs", ".fsx", ".fsi", ".ml", ".mli", ".jl", ".groovy",
   ".gradle", ".pas", ".pp", ".vb", ".vbs", ".d", ".f90", ".f95", ".f03",
   ".lisp", ".cl", ".el", ".rkt", ".tcl", ".awk", ".coffee", ".vue", ".svelte",
   ".html", ".htm", ".xhtml", ".css", ".scss", ".sass", ".less", ".xml",
   ".xsl", ".xsd", ".svg", ".json", ".jsonc", ".json5", ".yaml", ".yml",
   ".toml", ".ini", ".cfg", ".env", ".env.example", ".properties", ".plist",
   ".editorconfig", ".sh", ".bash", ".zsh", ".fish", ".ps1", ".psm1", ".bat",
   ".cmd", ".sql", ".graphql", ".gql", ".proto", ".tex", ".bib", ".log",
   ".org", ".adoc", ".asciidoc", ".diff", ".patch", ".cmake", ".makefile",
   ".dockerfile", ".tf", ".tfvars", ".hcl", ".prisma", ".sol", ".move",
   ".wgsl", ".glsl", ".hlsl"]

/-- `_PLAIN_TEXT_NAMES`. -/
def PLAIN_TEXT_NAMES : List String :=
  ["makefile", "dockerfile", "vagrantfile", "gemfile", "rakefile", "procfile",
   "justfile", "cmakelists.txt", ".gitignore", ".gitattributes",
   ".dockerignore", ".editorconfig", ".eslintrc", ".prettierrc", ".babelrc"]

/-- `SUPPORTED_EXTENSIONS = _DOCUMENT_EXTENSIONS | _CODE_EXTENSIONS`. -/
def SUPPORTED_EXTENSIONS : List String := DOCUMENT_EXTENSIONS ++ CODE_EXTENSIONS

/-- `is_supported(path)`. -/
def is_supported (p : String) : Bool :=
  let name := pathName p
  let startsDot : Bool := match name.data with
    | c :: _ => decide (c = '.')
    | [] => false
  if startsDot then decide (pyLower name ∈ PLAIN_TEXT_NAMES)
  else if pyLower (path_suffix p) ∈ SUPPORTED_EXTENSIONS then true
  else decide (pyLower name ∈ PLAIN_TEXT_NAMES)

/-- `len(text.split())`: number of maximal non-whitespace runs. -/
def countWords (cs : List Char) : ℕ :=
  (cs.foldl
    (fun (acc : ℕ × Bool) c =>
      if c.isWhitespace then (acc.1, false)
      else (if acc.2 then acc.1 else acc.1 + 1, true))
    (0, false)).1

/-- `len(text.split()) if text else 0`. -/
def word_count_of (text : String) : ℕ :=
  if text = "" then 0 else countWords text.data

/-- `extractor.ExtractionResult`. -/
structure ExtractionResult where
  text : String
  word_count : ℕ
  page_count : ℕ
  file_type : String
  content_hash : String
  size_bytes : ℕ
deriving DecidableEq, Repr

/-- Oracles for the extraction libraries (PyMuPDF, chardet, markdown,
python-docx, pandas); `none` models the library raising, which each
`_extract_*` helper catches internally. -/
structure ExtractOracles where
  pdfO : String → Option (String × ℕ)
  txtO : String → Option String
  mdO : String → Option String
  docxO : String → Option (String × ℕ)
  csvO : String → Option String

/-- The format dispatch of `extract` (text, page count).  `_extract_text`
returns `""` on failure; `_extract_markdown` falls back to `_extract_text`;
PDF and DOCX failures give `("", 0)`; unknown suffixes give `("", 0)`. -/
def extract_dispatch (Ox : ExtractOracles) (path : String) (suffix : String) :
    String × ℕ :=
  if suffix = ".pdf" then
    match Ox.pdfO path with
    | some r => r
    | none => ("", 0)
  else if suffix = ".txt" ∨ suffix = ".text" ∨ suffix = ".rst" then
    ((Ox.txtO path).getD "", 1)
  else if suffix = ".md" ∨ suffix = ".markdown" then
    ((match Ox.mdO path with
      | some t => t
      | none => (Ox.txtO path).getD ""), 1)
  else if suffix = ".docx" then
    match Ox.docxO path with
    | some r => r
    | none => ("", 0)
  else if suffix = ".csv" then
    ((Ox.csvO path).getD "", 1)
  else if suffix ∈ CODE_EXTENSIONS ∨ pyLower (pathName path) ∈ PLAIN_TEXT_NAMES then
    ((Ox.txtO path).getD "", 1)
  else ("", 0)

/-- `extract(path)`: `path.stat()` and `compute_hash` run first and raise
(`Except.error`) when the path is unreadable; the content hash is the hash of
the byte stream (`hashFn` abstracts SHA-256), computed before any format
extraction. -/
def extract (fs : String → Option (List ℕ)) (hashFn : List ℕ → String)
    (Ox : ExtractOracles) (path : String) : Except Unit ExtractionResult :=
  match fs path with
  | none => Except.error ()
  | some bytes =>
    let suffix := pyLower (path_suffix path)
    let tp := extract_dispatch Ox path suffix
    Except.ok
      { text := tp.1
        word_count := word_count_of tp.1
        page_count := tp.2
        file_type := String.mk (suffix.data.dropWhile (fun c => c = '.'))
        content_hash := hashFn bytes
        size_bytes := bytes.length }

/-- Extraction-library oracles that always raise, for the C4 counterexample. -/
def c4Ox : ExtractOracles :=
  { pdfO := fun _ => none
    txtO := fun _ => none
    mdO := fun _ => none
    docxO := fun _ => none
    csvO := fun _ => none }

/-- Filesystem with a single one-byte file, for the C4 counterexample. -/
def c4fs : String → Option (List ℕ) :=
  fun p => if p = "root/doc.txt" then some [65] else none

/- ### Metadata store operations (app/db.py) -/

/-- The per-root store: file rows (in rowid order), the append-only event
log as `(file_id, event_type, detail)` triples, and the next AUTOINCREMENT
id. -/
structure Store where
  files : List FileRec
  events : List (ℤ × String × String)
  nextId : ℤ
deriving DecidableEq, Repr

/-- `get_file_by_path`: first row whose original or current path matches. -/
def get_file_by_path (files : List FileRec) (p : String) : Option FileRec :=
  files.find? (fun r => r.original_path = p || r.current_path = p)

/-- `get_file_by_hash`: the matching row with the greatest id
(`ORDER BY id DESC LIMIT 1`). -/
def get_file_by_hash (files : List FileRec) (h : String) : Option FileRec :=
  (files.filter (fun r => r.content_hash = h)).foldl
    (fun acc r =>
      match acc with
      | none => some r
      | some a => if a.id < r.id then some r else some a)
    none

/-- `delete_file_by_path`: deletes every row whose original or current path
matches. -/
def delete_file_by_path (files : List FileRec) (p : String) : List FileRec :=
  files.filter (fun r => ! (r.original_path = p || r.current_path = p))

/-- `add_event`. -/
def add_event (st : Store) (fid : ℤ) (ty : String) (detail : String) : Store :=
  { st with events := st.events ++ [(fid, ty, detail)] }

/-- `update_file_current_path`. -/
def update_file_current_path (files : List FileRec) (fid : ℤ) (p : String) :
    List FileRec :=
  files.map (fun r => if r.id = fid then { r with current_path := p } else r)

/-- `update_file_filename`. -/
def update_file_filename (files : List FileRec) (fid : ℤ) (name : String) :
    List FileRec :=
  files.map (fun r => if r.id = fid then { r with filename := name } else r)

/-- `update_file_paths`. -/
def update_file_paths (files : List FileRec) (fid : ℤ)
    (orig cur name modified : String) : List FileRec :=
  files.map (fun r =>
    if r.id = fid then
      { r with
        original_path := orig
        current_path := cur
        filename := name
        modified_at := modified }
    else r)

/-- `upsert_file`: insert, or on `original_path` conflict update every field
except `id` and `created_at`; returns the row id. -/
def upsert_file (st : Store) (f : FileRec) : Store × ℤ :=
  match st.files.find? (fun r => r.original_path = f.original_path) with
  | some ex =>
      ({ st with files := st.files.map (fun r =>
          if r.original_path = f.original_path then
            { r with
              filename := f.filename
              current_path := f.current_path
              content_hash := f.content_hash
              embedding := f.embedding
              umap_x := f.umap_x
              umap_y := f.umap_y
              cluster_id := f.cluster_id
              summary := f.summary
              file_type := f.file_type
              size_bytes := f.size_bytes
              word_count := f.word_count
              page_count := f.page_count
              modified_at := f.modified_at }
          else r) }, ex.id)
  | none =>
      ({ st with
         files := st.files ++ [{ f with id := st.nextId }]
         nextId := st.nextId + 1 }, st.nextId)

/- ### Pipeline: removal (app/pipeline.py, remove_file) -/

/-- `remove_file(path)`: look up by path; skip the delete when the
highest-id record sharing the content hash is a *different* record whose
(current-or-original) path still exists on disk, or when the record's own
current path differs from `path` and still exists; otherwise delete all rows
matching the path and append a `file_removed` event.  (`disk` is the
set of paths that exist on disk; bus broadcasts are not modelled.) -/
def remove_file (disk : String → Bool) (st : Store) (path : String) : Store :=
  match get_file_by_path st.files path with
  | none => st
  | some existing =>
    let skipHash : Bool :=
      match get_file_by_hash st.files existing.content_hash with
      | some hr =>
          if hr.id ≠ existing.id then
            disk (if hr.current_path ≠ "" then hr.current_path else hr.original_path)
          else false
      | none => false
    if skipHash then st
    else
      let skipCur : Bool :=
        decide (existing.current_path ≠ "") && decide (existing.current_path ≠ path) &&
          disk existing.current_path
      if skipCur then st
      else
        add_event { st with files := delete_file_by_path st.files path }
          existing.id "file_removed" (pathName path)

/-- Record at `root/P2` (the surviving copy of the content), C1 fixture. -/
def c1A : FileRec :=
  { id := 1, filename := "f.txt", original_path := "root/P2",
    current_path := "root/P2", content_hash := "H" }

/-- Record at `root/P1` (the deleted path), C1 fixture. -/
def c1B : FileRec :=
  { id := 2, filename := "f.txt", original_path := "root/P1",
    current_path := "root/P1", content_hash := "H" }

/-- Disk contents for the C1 fixture: only `root/P2` exists. -/
def c1disk : String → Bool := fun p => p = "root/P2"

/-- Store for the C1 fixture. -/
def c1store : Store := { files := [c1A, c1B], events := [], nextId := 3 }

/- ### Pipeline: ingestion (app/pipeline.py, process_file) -/

/-- The embed-summarise-insert tail of `process_file`: generate embedding and
summary (oracles for `embedder.get_embedding` / `generate_summary`, which
never raise), upsert the record (keeping the prior `created_at` when a
path-matched record existed), and append a `file_added` / `file_modified`
event.  Bus broadcasts are not modelled. -/
def process_embed (embedO : String → Vec) (sumO : String → String) (now : String)
    (st : Store) (existing : Option FileRec) (result : ExtractionResult)
    (path : String) : Option ℤ × Store :=
  let record : FileRec :=
    { filename := pathName path
      original_path := path
      current_path := path
      content_hash := result.content_hash
      embedding := some (embedO result.text)
      summary := sumO result.text
      file_type := result.file_type
      size_bytes := (result.size_bytes : ℤ)
      word_count := (result.word_count : ℤ)
      page_count := (result.page_count : ℤ)
      created_at := match existing with
        | some e => e.created_at
        | none => now
      modified_at := now }
  let up := upsert_file st record
  let eventType := if existing.isSome then "file_modified" else "file_added"
  (some up.2, add_event up.1 up.2 eventType (pathName path))

/-- `process_file(path)`: reject unsupported or missing paths; extract
(exceptions caught by the outer `except` give `None`); reject empty
(whitespace-only) text outright; path hit with same hash re-syncs drifted
path/filename and skips re-embedding when a valid nonzero embedding is
stored; path miss with hash hit re-links the existing record
(`file_modified` event); otherwise embed, summarise and upsert. -/
def process_file (fs : String → Option (List ℕ)) (hashFn : List ℕ → String)
    (Ox : ExtractOracles) (embedO : String → Vec) (sumO : String → String)
    (now : String) (st : Store) (path : String) : Option ℤ × Store :=
  if (fs path).isNone ∨ ¬ is_supported path then (none, st)
  else
    match extract fs hashFn Ox path with
    | Except.error _ => (none, st)
    | Except.ok result =>
      if pyStrip result.text = "" then (none, st)
      else
        match get_file_by_path st.files path with
        | some existing =>
          if existing.content_hash = result.content_hash then
            let path_changed := existing.current_path ≠ path
            let name_changed := existing.filename ≠ pathName path
            let files1 := if path_changed then
                update_file_current_path st.files existing.id path
              else st.files
            let files2 := if name_changed then
                update_file_filename files1 existing.id (pathName path)
              else files1
            let st' := { st with files := files2 }
            if hasNonzeroEmbedding existing.embedding then (some existing.id, st')
            else process_embed embedO sumO now st' (some existing) result path
          else process_embed embedO sumO now st (some existing) result path
        | none =>
          match get_file_by_hash st.files result.content_hash with
          | some hashExisting =>
            let files1 :=
              update_file_paths st.files hashExisting.id path path (pathName path) now
            (some hashExisting.id,
              add_event { st with files := files1 } hashExisting.id "file_modified"
                (pathName path))
          | none => process_embed embedO sumO now st none result path

/-- Extraction oracles for the C5 fixtures: text extraction finds only
whitespace. -/
def c5Ox : ExtractOracles :=
  { pdfO := fun _ => none
    txtO := fun _ => some " "
    mdO := fun _ => none
    docxO := fun _ => none
    csvO := fun _ => none }

/-- Filesystem for the C5 fixtures: one supported file exists. -/
def c5fs : String → Option (List ℕ) :=
  fun p => if p = "root/a.txt" then some [32] else none

/-- The empty store, C5 fixture. -/
def c5store : Store := { files := [], events := [], nextId := 1 }

/- ### Sync engine (app/sync.py, sync_files_to_folders) -/

/-- One entry of the recluster plan handed to the sync engine
(`{file_id: {"current_path", "original_path", "filename", "cluster_id"}}`). -/
structure PlanEntry where
  file_id : ℤ
  current_path : String
  original_path : String
  filename : String
  cluster_id : ℤ
deriving DecidableEq, Repr

/-- A performed move (`{"file_id", "from", "to"}`). -/
structure MoveRec where
  file_id : ℤ
  from_path : String
  to_path : String
deriving DecidableEq, Repr

/-- `cluster_names.get(cid, "Uncategorised")`. -/
def lookup_name (names : List (ℤ × String)) (cid : ℤ) : String :=
  match names.find? (fun p => p.1 = cid) with
  | some p => p.2
  | none => "Uncategorised"

/-- `Path.stem`: the basename minus its suffix. -/
def pyStem (name : String) : String :=
  String.mk (name.data.take (name.data.length - (pySuffix name).data.length))

/-- The numbered-suffix collision loop: try `stem_1`, `stem_2`, ... until a
candidate is not on disk (fuelled by more names than files, so a free name is
always reached in practice). -/
def find_free (fs : List String) (folder stem sfx : String) :
    ℕ → ℕ → String
  | 0, counter => folder ++ "/" ++ stem ++ "_" ++ toString counter ++ sfx
  | fuel + 1, counter =>
      let cand := folder ++ "/" ++ stem ++ "_" ++ toString counter ++ sfx
      if cand ∈ fs then find_free fs folder stem sfx fuel (counter + 1) else cand

/-- The final target path: the plain `folder/filename` when free, else the
first free numbered rename. -/
def sync_target (fs : List String) (target_folder fname : String) : String :=
  let target0 := target_folder ++ "/" ++ fname
  if target0 ∈ fs then
    find_free fs target_folder (pyStem fname) (pySuffix fname) (fs.length + 1) 1
  else target0

/-- Best existing source path, in order: non-empty `current_path` on disk,
then non-empty `original_path` on disk, then `root/filename` on disk. -/
def sync_source (fs : List String) (e : PlanEntry) (root : String) : Option String :=
  if e.current_path ≠ "" ∧ e.current_path ∈ fs then some e.current_path
  else if e.original_path ≠ "" ∧ e.original_path ∈ fs then some e.original_path
  else if (root ++ "/" ++ e.filename) ∈ fs then some (root ++ "/" ++ e.filename)
  else none

/-- Processing of one plan entry by `sync_files_to_folders`: missing source
skips (warning only); a source already at the pre-collision target skips;
otherwise the move is attempted (`moveFail` models `shutil.move` raising,
which is logged and not recorded) and, on success, the filesystem is updated
and the move recorded.  The filesystem is the set of existing file paths;
directory creation/cleanup, the sync lock and the recently-synced set are
outside this claim. -/
def sync_step (moveFail : String → String → Bool) (root : String)
    (names : List (ℤ × String)) (fs : List String) (e : PlanEntry) :
    List String × Option MoveRec :=
  let target_folder := root ++ "/" ++ lookup_name names e.cluster_id
  match sync_source fs e root with
  | none => (fs, none)
  | some source =>
    let target0 := target_folder ++ "/" ++ e.filename
    if source = target0 then (fs, none)
    else
      let target := sync_target fs target_folder e.filename
      if moveFail source target then (fs, none)
      else ((fs.erase source) ++ [target], some ⟨e.file_id, source, target⟩)

/-- `sync_files_to_folders`: fold the per-entry step over the plan, returning
the final filesystem and the list of moves actually performed. -/
def sync_files_to_folders (moveFail : String → String → Bool) (root : String)
    (names : List (ℤ × String)) : List String → List PlanEntry →
    List String × List MoveRec
  | fs, [] => (fs, [])
  | fs, e :: rest =>
      let step := sync_step moveFail root names fs e
      let restRes := sync_files_to_folders moveFail root names step.1 rest
      (restRes.1,
        match step.2 with
        | some m => m :: restRes.2
        | none => restRes.2)

/-- Replay a list of moves against a filesystem. -/
def applyMoves (fs : List String) : List MoveRec → List String
  | [] => fs
  | m :: ms => applyMoves ((fs.erase m.from_path) ++ [m.to_path]) ms

/-- A concrete plan entry for the C8 witness. -/
def c8entry : PlanEntry :=
  { file_id := 7, current_path := "r/x.txt", original_path := "", filename := "x.txt",
    cluster_id := 0 }

/- ### Recluster scheduler (app/main.py, ReclusterScheduler) -/

/-- `delay = 2.0` (debounce). -/
def DEBOUNCE_DELAY : ℚ := 2

/-- `COOLDOWN_SECONDS = 5.0`. -/
def COOLDOWN_SECONDS : ℚ := 5

/-- Scheduler state: the pending flag, the armed timer's deadline (`none`
when no timer is armed or it was cancelled), the `_last_completed` monotonic
timestamp (`0.0` = never), and the time until which the `asyncio.Lock` is
held by a running recluster. -/
structure SchedState where
  pending : Bool
  deadline : Option ℚ
  lastCompleted : ℚ
  busyUntil : ℚ
deriving DecidableEq, Repr

/-- External events: `request()` at time `t`, and the armed timer firing at
its deadline `t` with the triggered recluster taking `dur` seconds. -/
inductive SchedEvent where
  | req (t : ℚ)
  | fire (t : ℚ) (dur : ℚ)
deriving DecidableEq, Repr

/-- Event timestamp. -/
def evTime : SchedEvent → ℚ
  | .req t => t
  | .fire t _ => t

/-- Run duration carried by a fire event (0 for requests). -/
def evDur : SchedEvent → ℚ
  | .req _ => 0
  | .fire _ d => d

/-- One scheduler step.  `request()` sets pending and re-arms the timer at
`t + delay` (cancelling any previous one).  A `fire` is effective only if the
armed deadline is exactly its time (cancelled timers never fire).  The
`_execute` body runs under the lock: its effective start is delayed to
`busyUntil`; with pending set it clears pending and either skips (cooldown:
`last_completed > 0` and less than `COOLDOWN_SECONDS` elapsed) or runs the
full recluster over `[te, te + dur]`, setting `last_completed`.  A request
arriving during a run is consumed without a run either by the holder's
`while pending` loop or by its own fire hitting the cooldown — both are
modelled by the cooldown test at the deferred start time. -/
def sched_step (s : SchedState) : SchedEvent → SchedState × Option (ℚ × ℚ)
  | .req t => ({ s with pending := true, deadline := some (t + DEBOUNCE_DELAY) }, none)
  | .fire t dur =>
      if s.deadline = some t then
        let s1 := { s with deadline := none }
        let te := max t s1.busyUntil
        if s1.pending then
          let s2 := { s1 with pending := false }
          if s2.lastCompleted > 0 ∧ te - s2.lastCompleted < COOLDOWN_SECONDS then
            (s2, none)
          else
            ({ s2 with lastCompleted := te + dur, busyUntil := te + dur },
              some (te, te + dur))
        else (s1, none)
      else (s, none)

/-- Execute a trace of events, collecting the recluster runs `(start, end)`. -/
def sched_run (s : SchedState) : List SchedEvent → SchedState × List (ℚ × ℚ)
  | [] => (s, [])
  | ev :: rest =>
      let step := sched_step s ev
      let restRes := sched_run step.1 rest
      (restRes.1,
        match step.2 with
        | some r => r :: restRes.2
        | none => restRes.2)

/-- Trace validity: nondecreasing timestamps from a start time, nonnegative
durations. -/
def ValidTrace : ℚ → List SchedEvent → Prop
  | _, [] => True
  | t0, ev :: rest => t0 ≤ evTime ev ∧ 0 ≤ evDur ev ∧ ValidTrace (evTime ev) rest

/-- Runs are serialized: each begins no earlier than the bound and no
earlier than the previous run's end. -/
def RunsChain : ℚ → List (ℚ × ℚ) → Prop
  | _, [] => True
  | b, r :: rs => b ≤ r.1 ∧ r.1 ≤ r.2 ∧ RunsChain r.2 rs

lemma sq_lt_sq_iff_of_nonneg {u v : ℝ} (hu : 0 ≤ u) (hv : 0 ≤ v) :
    u ^ 2 < v ^ 2 ↔ u < v := by
  constructor
  · intro h
    by_contra hle
    push_neg at hle
    nlinarith
  · intro h
    nlinarith

lemma sqrtMulLT_iff (b y q : ℚ) (hy : (0:ℚ) ≤ y) :
    sqrtMulLT b y q = true ↔ (b : ℝ) * Real.sqrt (y : ℚ) < (q : ℝ) := by
  have hy' : (0:ℝ) ≤ (y : ℚ) := by exact_mod_cast hy
  have hs : (0:ℝ) ≤ Real.sqrt (y : ℚ) := Real.sqrt_nonneg _
  have hsq : Real.sqrt (y : ℚ) ^ 2 = (y : ℚ) := Real.sq_sqrt hy'
  unfold sqrtMulLT
  by_cases hb : (0:ℚ) ≤ b
  · have hb' : (0:ℝ) ≤ (b:ℚ) := by exact_mod_cast hb
    have hB : (0:ℝ) ≤ (b:ℚ) * Real.sqrt (y:ℚ) := mul_nonneg hb' hs
    rw [if_pos hb]
    simp only [Bool.and_eq_true, decide_eq_true_eq]
    constructor
    · rintro ⟨hq, h2⟩
      have hq' : (0:ℝ) < (q:ℚ) := by exact_mod_cast hq
      have h2' : ((b:ℚ):ℝ) ^ 2 * ((y:ℚ):ℝ) < ((q:ℚ):ℝ) ^ 2 := by exact_mod_cast h2
      rw [← sq_lt_sq_iff_of_nonneg hB (le_of_lt hq')]
      nlinarith [hsq]
    · intro h
      have hq' : (0:ℝ) < (q:ℚ) := lt_of_le_of_lt hB h
      refine ⟨by exact_mod_cast hq', ?_⟩
      have h2 : (((b:ℚ)) * Real.sqrt (y:ℚ)) ^ 2 < ((q:ℚ):ℝ) ^ 2 := by
        rw [sq_lt_sq_iff_of_nonneg hB (le_of_lt hq')]
        exact h
      have h3 : ((b:ℚ):ℝ) ^ 2 * ((y:ℚ):ℝ) < ((q:ℚ):ℝ) ^ 2 := by
        nlinarith [hsq]
      exact_mod_cast h3
  · have hb' : ((b:ℚ):ℝ) < 0 := by
      have hbq : b < 0 := lt_of_not_ge hb
      exact_mod_cast hbq
    have hB : ((b:ℚ):ℝ) * Real.sqrt (y:ℚ) ≤ 0 :=
      mul_nonpos_of_nonpos_of_nonneg (le_of_lt hb') hs
    rw [if_neg hb]
    simp only [Bool.or_eq_true, Bool.and_eq_true, decide_eq_true_eq]
    constructor
    · rintro (hq | ⟨hq, h2⟩)
      · have hq' : (0:ℝ) < (q:ℚ) := by exact_mod_cast hq
        linarith
      · have hq' : ((q:ℚ):ℝ) ≤ 0 := by exact_mod_cast hq
        have h2' : ((q:ℚ):ℝ) ^ 2 < ((b:ℚ):ℝ) ^ 2 * ((y:ℚ):ℝ) := by exact_mod_cast h2
        have h3 : (-((q:ℚ):ℝ)) ^ 2 < (-(((b:ℚ)) * Real.sqrt (y:ℚ))) ^ 2 := by
          nlinarith [hsq]
        have h4 := (sq_lt_sq_iff_of_nonneg (neg_nonneg.mpr hq') (neg_nonneg.mpr hB)).mp h3
        linarith
    · intro h
      by_cases hq : (0:ℚ) < q
      · exact Or.inl hq
      · refine Or.inr ⟨le_of_not_gt hq, ?_⟩
        have hq' : ((q:ℚ):ℝ) ≤ 0 := by
          have hqq : q ≤ 0 := le_of_not_gt hq
          exact_mod_cast hqq
        have h2 : (-((q:ℚ):ℝ)) ^ 2 < (-(((b:ℚ)) * Real.sqrt (y:ℚ))) ^ 2 := by
          rw [sq_lt_sq_iff_of_nonneg (neg_nonneg.mpr hq') (neg_nonneg.mpr hB)]
          linarith
        have h3 : ((q:ℚ):ℝ) ^ 2 < ((b:ℚ):ℝ) ^ 2 * ((y:ℚ):ℝ) := by nlinarith [hsq]
        exact_mod_cast h3

lemma ratLTsqrtMul_iff (q b y : ℚ) (hy : (0:ℚ) ≤ y) :
    ratLTsqrtMul q b y = true ↔ (q : ℝ) < (b : ℝ) * Real.sqrt (y : ℚ) := by
  have hy' : (0:ℝ) ≤ (y : ℚ) := by exact_mod_cast hy
  have hs : (0:ℝ) ≤ Real.sqrt (y : ℚ) := Real.sqrt_nonneg _
  have hsq : Real.sqrt (y : ℚ) ^ 2 = (y : ℚ) := Real.sq_sqrt hy'
  unfold ratLTsqrtMul
  by_cases hb : (0:ℚ) ≤ b
  · have hb' : (0:ℝ) ≤ (b:ℚ) := by exact_mod_cast hb
    have hB : (0:ℝ) ≤ (b:ℚ) * Real.sqrt (y:ℚ) := mul_nonneg hb' hs
    rw [if_pos hb]
    simp only [Bool.or_eq_true, Bool.and_eq_true, decide_eq_true_eq]
    constructor
    · rintro (hq | ⟨hq, h2⟩)
      · have hq' : ((q:ℚ):ℝ) < 0 := by exact_mod_cast hq
        linarith
      · have hq' : (0:ℝ) ≤ ((q:ℚ):ℝ) := by exact_mod_cast hq
        have h2' : ((q:ℚ):ℝ) ^ 2 < ((b:ℚ):ℝ) ^ 2 * ((y:ℚ):ℝ) := by exact_mod_cast h2
        rw [← sq_lt_sq_iff_of_nonneg hq' hB]
        nlinarith [hsq]
    · intro h
      by_cases hq : q < 0
      · exact Or.inl hq
      · refine Or.inr ⟨le_of_not_gt hq, ?_⟩
        have hq' : (0:ℝ) ≤ ((q:ℚ):ℝ) := by
          have hqq : (0:ℚ) ≤ q := le_of_not_gt hq
          exact_mod_cast hqq
        have h2 : ((q:ℚ):ℝ) ^ 2 < (((b:ℚ)) * Real.sqrt (y:ℚ)) ^ 2 := by
          rw [sq_lt_sq_iff_of_nonneg hq' hB]
          exact h
        have h3 : ((q:ℚ):ℝ) ^ 2 < ((b:ℚ):ℝ) ^ 2 * ((y:ℚ):ℝ) := by nlinarith [hsq]
        exact_mod_cast h3
  · have hb' : ((b:ℚ):ℝ) < 0 := by
      have hbq : b < 0 := lt_of_not_ge hb
      exact_mod_cast hbq
    have hB : ((b:ℚ):ℝ) * Real.sqrt (y:ℚ) ≤ 0 :=
      mul_nonpos_of_nonpos_of_nonneg (le_of_lt hb') hs
    rw [if_neg hb]
    simp only [Bool.and_eq_true, decide_eq_true_eq]
    constructor
    · rintro ⟨hq, h2⟩
      have hq' : ((q:ℚ):ℝ) < 0 := by exact_mod_cast hq
      have h2' : ((b:ℚ):ℝ) ^ 2 * ((y:ℚ):ℝ) < ((q:ℚ):ℝ) ^ 2 := by exact_mod_cast h2
      have h3 : (-(((b:ℚ)) * Real.sqrt (y:ℚ))) ^ 2 < (-((q:ℚ):ℝ)) ^ 2 := by
        nlinarith [hsq]
      have h4 := (sq_lt_sq_iff_of_nonneg (neg_nonneg.mpr hB) (neg_nonneg.mpr (le_of_lt hq'))).mp h3
      linarith
    · intro h
      have hq' : ((q:ℚ):ℝ) < 0 := lt_of_lt_of_le h hB
      refine ⟨by exact_mod_cast hq', ?_⟩
      have h2 : (-(((b:ℚ)) * Real.sqrt (y:ℚ))) ^ 2 < (-((q:ℚ):ℝ)) ^ 2 := by
        rw [sq_lt_sq_iff_of_nonneg (neg_nonneg.mpr hB) (neg_nonneg.mpr (le_of_lt hq'))]
        linarith
      have h3 : ((b:ℚ):ℝ) ^ 2 * ((y:ℚ):ℝ) < ((q:ℚ):ℝ) ^ 2 := by nlinarith [hsq]
      exact_mod_cast h3

lemma ltSqrtAdd_iff (a x b y c : ℚ) (hx : (0:ℚ) ≤ x) (hy : (0:ℚ) ≤ y) :
    ltSqrtAdd a x b y c = true ↔
      (a : ℝ) * Real.sqrt (x : ℚ) < (b : ℝ) * Real.sqrt (y : ℚ) + (c : ℝ) := by
  have hx' : (0:ℝ) ≤ (x : ℚ) := by exact_mod_cast hx
  have hy' : (0:ℝ) ≤ (y : ℚ) := by exact_mod_cast hy
  have hsx : (0:ℝ) ≤ Real.sqrt (x : ℚ) := Real.sqrt_nonneg _
  have hsy : (0:ℝ) ≤ Real.sqrt (y : ℚ) := Real.sqrt_nonneg _
  have hsqx : Real.sqrt (x : ℚ) ^ 2 = (x : ℚ) := Real.sq_sqrt hx'
  have hsqy : Real.sqrt (y : ℚ) ^ 2 = (y : ℚ) := Real.sq_sqrt hy'
  have hpos' : ratLTsqrtMul (-c) b y = true ↔
      (0:ℝ) < (b : ℝ) * Real.sqrt (y : ℚ) + (c : ℝ) := by
    rw [ratLTsqrtMul_iff (-c) b y hy]
    push_cast
    constructor <;> intro h <;> linarith
  unfold ltSqrtAdd
  by_cases hA : a ≤ 0 ∨ x = 0
  · have hAle : (a : ℝ) * Real.sqrt (x : ℚ) ≤ 0 := by
      rcases hA with ha | hx0
      · exact mul_nonpos_of_nonpos_of_nonneg (by exact_mod_cast ha) hsx
      · simp [hx0]
    rw [if_pos hA]
    by_cases hp : ratLTsqrtMul (-c) b y = true
    · rw [if_pos hp]
      have hBcpos := hpos'.mp hp
      simp only [true_iff]
      linarith
    · rw [if_neg hp]
      have hBc : (b : ℝ) * Real.sqrt (y : ℚ) + (c : ℝ) ≤ 0 := by
        by_contra hcon
        push_neg at hcon
        exact hp (hpos'.mpr hcon)
      rw [sqrtMulLT_iff _ _ _ hy]
      constructor
      · intro h
        have h' : ((2*b*c : ℚ) : ℝ) * Real.sqrt (y:ℚ) <
            ((a ^ 2 * x - b ^ 2 * y - c ^ 2 : ℚ) : ℝ) := h
        push_cast at h'
        have hBc2 : ((b : ℝ) * Real.sqrt (y:ℚ) + (c:ℝ)) ^ 2 <
            ((a : ℝ) * Real.sqrt (x:ℚ)) ^ 2 := by
          nlinarith [hsqx, hsqy]
        have h4 := (sq_lt_sq_iff_of_nonneg (neg_nonneg.mpr hBc) (neg_nonneg.mpr hAle)).mp
          (by nlinarith [hBc2])
        linarith
      · intro h
        have hBc2 : (-((b : ℝ) * Real.sqrt (y:ℚ) + (c:ℝ))) ^ 2 <
            (-((a : ℝ) * Real.sqrt (x:ℚ))) ^ 2 := by
          rw [sq_lt_sq_iff_of_nonneg (neg_nonneg.mpr hBc) (neg_nonneg.mpr hAle)]
          linarith
        show ((2*b*c : ℚ) : ℝ) * Real.sqrt (y:ℚ) <
            ((a ^ 2 * x - b ^ 2 * y - c ^ 2 : ℚ) : ℝ)
        push_cast
        nlinarith [hsqx, hsqy]
  · push_neg at hA
    obtain ⟨ha, hx0⟩ := hA
    have ha' : (0:ℝ) < (a : ℚ) := by exact_mod_cast ha
    have hxq : 0 < x := lt_of_le_of_ne hx (Ne.symm hx0)
    have hxpos : (0:ℝ) < (x : ℚ) := by exact_mod_cast hxq
    have hsxpos : (0:ℝ) < Real.sqrt (x : ℚ) := Real.sqrt_pos.mpr hxpos
    have hApos : (0:ℝ) < (a : ℝ) * Real.sqrt (x : ℚ) := mul_pos ha' hsxpos
    have hcond : ¬ (a ≤ 0 ∨ x = 0) := by
      push_neg
      exact ⟨ha, hx0⟩
    rw [if_neg hcond]
    by_cases hp : ratLTsqrtMul (-c) b y = true
    · rw [if_pos hp]
      have hBcpos := hpos'.mp hp
      rw [ratLTsqrtMul_iff _ _ _ hy]
      constructor
      · intro h
        have h' : ((a ^ 2 * x - b ^ 2 * y - c ^ 2 : ℚ) : ℝ) <
            ((2*b*c : ℚ) : ℝ) * Real.sqrt (y:ℚ) := h
        push_cast at h'
        have hA2 : ((a : ℝ) * Real.sqrt (x:ℚ)) ^ 2 <
            ((b : ℝ) * Real.sqrt (y:ℚ) + (c:ℝ)) ^ 2 := by
          nlinarith [hsqx, hsqy]
        exact (sq_lt_sq_iff_of_nonneg (le_of_lt hApos) (le_of_lt hBcpos)).mp hA2
      · intro h
        have hA2 : ((a : ℝ) * Real.sqrt (x:ℚ)) ^ 2 <
            ((b : ℝ) * Real.sqrt (y:ℚ) + (c:ℝ)) ^ 2 := by
          rw [sq_lt_sq_iff_of_nonneg (le_of_lt hApos) (le_of_lt hBcpos)]
          exact h
        show ((a ^ 2 * x - b ^ 2 * y - c ^ 2 : ℚ) : ℝ) <
            ((2*b*c : ℚ) : ℝ) * Real.sqrt (y:ℚ)
        push_cast
        nlinarith [hsqx, hsqy]
    · rw [if_neg hp]
      simp only [Bool.false_eq_true, false_iff]
      have hBc : (b : ℝ) * Real.sqrt (y : ℚ) + (c : ℝ) ≤ 0 := by
        by_contra hcon
        push_neg at hcon
        exact hp (hpos'.mpr hcon)
      intro hcon
      linarith

lemma simLTpair_iff (eps d1 p1 d2 p2 : ℚ) (hp1 : (0:ℚ) ≤ p1) (hp2 : (0:ℚ) ≤ p2)
    (h1 : (0:ℝ) < Real.sqrt (p1 : ℚ) + (eps : ℝ)) (h2 : (0:ℝ) < Real.sqrt (p2 : ℚ) + (eps : ℝ)) :
    simLTpair eps d1 p1 d2 p2 = true ↔
      (d1 : ℝ) / (Real.sqrt (p1 : ℚ) + (eps : ℝ)) < (d2 : ℝ) / (Real.sqrt (p2 : ℚ) + (eps : ℝ)) := by
  unfold simLTpair
  rw [ltSqrtAdd_iff d1 p2 d2 p1 ((d2 - d1) * eps) hp2 hp1]
  rw [div_lt_div_iff h1 h2]
  push_cast
  constructor <;> intro h <;> nlinarith

lemma simGEpair_iff (eps d p t : ℚ) (hp : (0:ℚ) ≤ p)
    (h1 : (0:ℝ) < Real.sqrt (p : ℚ) + (eps : ℝ)) :
    simGEpair eps d p t = true ↔
      (t : ℝ) ≤ (d : ℝ) / (Real.sqrt (p : ℚ) + (eps : ℝ)) := by
  unfold simGEpair
  rw [Bool.not_eq_true', ← Bool.not_eq_true]
  rw [ltSqrtAdd_iff d 1 t p (t * eps) (by norm_num) hp]
  rw [le_div_iff h1]
  have h1' : Real.sqrt ((1 : ℚ) : ℝ) = 1 := by
    norm_num
  rw [h1']
  push_cast
  constructor
  · intro h
    by_contra hcon
    push_neg at hcon
    apply h
    nlinarith
  · intro h hcon
    nlinarith

lemma normSq_nonneg (e : Vec) : (0:ℚ) ≤ normSq e := by
  unfold normSq dotQ
  induction e with
  | nil => simp
  | cons x xs ih =>
      simp only [List.zipWith_cons_cons, List.sum_cons]
      have := mul_self_nonneg x
      linarith

lemma noiseSimEps_pos : (0:ℚ) < noiseSimEps := by norm_num [noiseSimEps]

lemma noise_denom_pos (p : ℚ) : (0:ℝ) < Real.sqrt ((p : ℚ) : ℝ) + ((noiseSimEps : ℚ) : ℝ) := by
  have h1 : (0:ℝ) ≤ Real.sqrt ((p : ℚ) : ℝ) := Real.sqrt_nonneg _
  have h2 : (0:ℝ) < ((noiseSimEps : ℚ) : ℝ) := by exact_mod_cast noiseSimEps_pos
  linarith

lemma pairLE_refl (eps : ℚ) (a : ℚ × ℚ × ℤ) : pairLE eps a a := le_refl _

lemma pairLE_trans {eps : ℚ} {a b c : ℚ × ℚ × ℤ} (h1 : pairLE eps a b)
    (h2 : pairLE eps b c) : pairLE eps a c := le_trans h1 h2

/-- Core invariant of the fold in `best_centroid`: the result has a
well-formed pair, dominates the accumulator and every entry of the list, and
is the accumulator or one of the entries. -/
lemma best_centroid_fold_spec (e : Vec) (cents : List (ℤ × Vec)) :
    ∀ acc : ℚ × ℚ × ℤ, 0 ≤ acc.2.1 →
      0 ≤ (cents.foldl (best_centroid_step e) acc).2.1 ∧
      pairLE noiseSimEps acc (cents.foldl (best_centroid_step e) acc) ∧
      (∀ cc ∈ cents,
        pairLE noiseSimEps (simPairOf e cc) (cents.foldl (best_centroid_step e) acc)) ∧
      ((cents.foldl (best_centroid_step e) acc) = acc ∨
        ∃ cc ∈ cents, (cents.foldl (best_centroid_step e) acc) = simPairOf e cc) := by
  induction cents with
  | nil =>
      intro acc hacc
      refine ⟨hacc, pairLE_refl _ _, ?_, Or.inl rfl⟩
      intro cc hcc
      exact absurd hcc (List.not_mem_nil cc)
  | cons cc rest ih =>
      intro acc hacc
      have hp : (0:ℚ) ≤ normSq e * normSq cc.2 :=
        mul_nonneg (normSq_nonneg e) (normSq_nonneg cc.2)
      have hbridge := simLTpair_iff noiseSimEps acc.1 acc.2.1 (dotQ e cc.2)
        (normSq e * normSq cc.2) hacc hp (noise_denom_pos _) (noise_denom_pos _)
      simp only [List.foldl_cons]
      by_cases hs : simLTpair noiseSimEps acc.1 acc.2.1 (dotQ e cc.2)
          (normSq e * normSq cc.2) = true
      · have hlt := hbridge.mp hs
        have hstep : best_centroid_step e acc cc = simPairOf e cc := by
          unfold best_centroid_step simPairOf
          rw [if_pos hs]
        rw [hstep]
        obtain ⟨h0, hLE, hAll, hMem⟩ := ih (simPairOf e cc) hp
        refine ⟨h0, ?_, ?_, ?_⟩
        · exact le_trans (le_of_lt hlt) hLE
        · intro cc' hcc'
          rcases List.mem_cons.mp hcc' with hh | ht
          · rw [hh]; exact hLE
          · exact hAll cc' ht
        · rcases hMem with heq | ⟨cc', hcc', heq⟩
          · exact Or.inr ⟨cc, List.mem_cons_self cc rest, heq⟩
          · exact Or.inr ⟨cc', List.mem_cons_of_mem cc hcc', heq⟩
      · have hge : (dotQ e cc.2 : ℝ) /
            (Real.sqrt ((normSq e * normSq cc.2 : ℚ) : ℝ) + ((noiseSimEps : ℚ) : ℝ)) ≤
            (acc.1 : ℝ) / (Real.sqrt ((acc.2.1 : ℚ) : ℝ) + ((noiseSimEps : ℚ) : ℝ)) := by
          by_contra hcon
          push_neg at hcon
          exact hs (hbridge.mpr hcon)
        have hstep : best_centroid_step e acc cc = acc := by
          unfold best_centroid_step
          rw [if_neg hs]
        rw [hstep]
        obtain ⟨h0, hLE, hAll, hMem⟩ := ih acc hacc
        refine ⟨h0, hLE, ?_, ?_⟩
        · intro cc' hcc'
          rcases List.mem_cons.mp hcc' with hh | ht
          · rw [hh]
            exact pairLE_trans hge hLE
          · exact hAll cc' ht
        · rcases hMem with heq | ⟨cc', hcc', heq⟩
          · exact Or.inl heq
          · exact Or.inr ⟨cc', List.mem_cons_of_mem cc hcc', heq⟩

lemma sqrt_cast_mul (a b : ℚ) (ha : (0:ℚ) ≤ a) :
    Real.sqrt ((a * b : ℚ) : ℝ) = Real.sqrt ((a : ℚ) : ℝ) * Real.sqrt ((b : ℚ) : ℝ) := by
  have hab : ((a * b : ℚ) : ℝ) = ((a : ℚ) : ℝ) * ((b : ℚ) : ℝ) := by push_cast; ring
  rw [hab, Real.sqrt_mul (by exact_mod_cast ha)]

lemma noiseSimGEthreshold_iff_pair (e c : Vec) :
    noiseSimGEthreshold e c ↔
      (NOISE_SIMILARITY_THRESHOLD : ℝ) ≤ (dotQ e c : ℝ) /
        (Real.sqrt ((normSq e * normSq c : ℚ) : ℝ) + ((noiseSimEps : ℚ) : ℝ)) := by
  unfold noiseSimGEthreshold
  rw [sqrt_cast_mul _ _ (normSq_nonneg e)]

lemma noiseSimLE_iff_pair (e c c' : Vec) :
    noiseSimLE e c c' ↔
      pairLE noiseSimEps (simPairOf e (0, c)) (simPairOf e (0, c')) := by
  unfold noiseSimLE pairLE simPairOf
  rw [sqrt_cast_mul _ _ (normSq_nonneg e), sqrt_cast_mul _ _ (normSq_nonneg e)]

/-- The initial accumulator of `best_centroid` carries similarity exactly `-1`. -/
lemma init_pair_val :
    ((-noiseSimEps : ℚ) : ℝ) / (Real.sqrt (((0:ℚ)) : ℝ) + ((noiseSimEps : ℚ) : ℝ)) = -1 := by
  have h0 : (((0:ℚ)) : ℝ) = 0 := by norm_num
  have hne : ((noiseSimEps : ℚ) : ℝ) ≠ 0 := ne_of_gt (by exact_mod_cast noiseSimEps_pos)
  rw [h0, Real.sqrt_zero]
  push_cast at hne ⊢
  field_simp

/-- On the large-collection branch, `cluster_embeddings` returns the smart
noise reassignment of the HDBSCAN-branch base labels. -/
lemma cluster_embeddings_labels_of_large (O : ClusterOracles) (embeddings : List Vec)
    (hn : SMALL_COLLECTION_THRESHOLD < embeddings.length) :
    (cluster_embeddings O embeddings).1 =
      assign_noise_smart (hdbscan_base_labels O embeddings) embeddings := by
  unfold cluster_embeddings
  have h3 : ¬ (embeddings.length < MIN_FILES_FOR_CLUSTERING) := by
    unfold MIN_FILES_FOR_CLUSTERING
    unfold SMALL_COLLECTION_THRESHOLD at hn
    omega
  have h25 : ¬ (embeddings.length ≤ SMALL_COLLECTION_THRESHOLD) := by omega
  simp only [h3, h25, if_neg, if_false]

/-- On the small-collection branch (`3 ≤ n ≤ 25`), `cluster_embeddings`
returns the agglomerative labels with no noise reassignment. -/
lemma cluster_embeddings_labels_of_small (O : ClusterOracles) (embeddings : List Vec)
    (h3 : MIN_FILES_FOR_CLUSTERING ≤ embeddings.length)
    (h25 : embeddings.length ≤ SMALL_COLLECTION_THRESHOLD) :
    (cluster_embeddings O embeddings).1 = agglomerative_fallback O embeddings := by
  unfold cluster_embeddings
  have h3' : ¬ (embeddings.length < MIN_FILES_FOR_CLUSTERING) := by omega
  simp only [h3', h25, if_neg, if_true, if_false]

lemma mem_insertSorted {x a : ℤ} {l : List ℤ} :
    a ∈ insertSorted x l ↔ a = x ∨ a ∈ l := by
  induction l with
  | nil => simp [insertSorted]
  | cons y ys ih =>
      unfold insertSorted
      by_cases h : x ≤ y
      · rw [if_pos h]
        simp
      · rw [if_neg h]
        simp only [List.mem_cons, ih]
        tauto

lemma mem_sortInts {a : ℤ} {l : List ℤ} : a ∈ sortInts l ↔ a ∈ l := by
  induction l with
  | nil => simp [sortInts]
  | cons y ys ih =>
      show a ∈ insertSorted y (sortInts ys) ↔ _
      rw [mem_insertSorted, ih]
      simp

lemma mem_nonNoiseIds {c : ℤ} {labels : List ℤ} :
    c ∈ nonNoiseIds labels ↔ c ∈ labels ∧ c ≠ -1 := by
  unfold nonNoiseIds
  rw [mem_sortInts, List.mem_dedup, List.mem_filter]
  simp

lemma assign_noise_smart_eq_of_mixed (labels : List ℤ) (embs : List Vec)
    (h1 : ¬ labels.all (fun l => l ≠ -1) = true)
    (h2 : ¬ labels.all (fun l => l = -1) = true) :
    assign_noise_smart labels embs =
      List.zipWith
        (fun l e =>
          if l = -1 then
            let b := best_centroid e (noise_cents labels embs)
            if simGEpair noiseSimEps b.1 b.2.1 NOISE_SIMILARITY_THRESHOLD then b.2.2 else -1
          else l)
        labels embs := by
  unfold assign_noise_smart noise_cents noise_centroid
  rw [if_neg h1, if_neg h2]

/-- The decision `_assign_noise_smart` makes for one noise point `e`:
(1) if the best similarity misses the threshold, every non-noise centroid is
below the threshold; (2) if some centroid reaches the threshold, the best
does; (3) if the best reaches the threshold, the recorded cluster id is an
argmax centroid at/above the threshold. -/
lemma noise_point_decision (labels : List ℤ) (embs : List Vec) (e : Vec) :
    (¬ simGEpair noiseSimEps (best_centroid e (noise_cents labels embs)).1
        (best_centroid e (noise_cents labels embs)).2.1 NOISE_SIMILARITY_THRESHOLD = true →
      ∀ c ∈ nonNoiseIds labels, ¬ noiseSimGEthreshold e (noise_centroid labels embs c)) ∧
    ((∃ c ∈ nonNoiseIds labels, noiseSimGEthreshold e (noise_centroid labels embs c)) →
      simGEpair noiseSimEps (best_centroid e (noise_cents labels embs)).1
          (best_centroid e (noise_cents labels embs)).2.1 NOISE_SIMILARITY_THRESHOLD = true) ∧
    (simGEpair noiseSimEps (best_centroid e (noise_cents labels embs)).1
        (best_centroid e (noise_cents labels embs)).2.1 NOISE_SIMILARITY_THRESHOLD = true →
      ∃ c ∈ nonNoiseIds labels, (best_centroid e (noise_cents labels embs)).2.2 = c ∧
        noiseSimGEthreshold e (noise_centroid labels embs c) ∧
        ∀ c' ∈ nonNoiseIds labels,
          noiseSimLE e (noise_centroid labels embs c') (noise_centroid labels embs c)) := by
  obtain ⟨h0, hLEinit, hAll, hMem⟩ :=
    best_centroid_fold_spec e (noise_cents labels embs) (-noiseSimEps, 0, -1) (le_refl 0)
  have hthr := simGEpair_iff noiseSimEps (best_centroid e (noise_cents labels embs)).1
    (best_centroid e (noise_cents labels embs)).2.1 NOISE_SIMILARITY_THRESHOLD h0
    (noise_denom_pos _)
  have hmemc : ∀ c ∈ nonNoiseIds labels,
      (c, noise_centroid labels embs c) ∈ noise_cents labels embs := by
    intro c hc
    unfold noise_cents
    exact List.mem_map.mpr ⟨c, hc, rfl⟩
  have hvalc : ∀ c ∈ nonNoiseIds labels,
      pairLE noiseSimEps (simPairOf e (c, noise_centroid labels embs c))
        (best_centroid e (noise_cents labels embs)) := by
    intro c hc
    exact hAll _ (hmemc c hc)
  refine ⟨?_, ?_, ?_⟩
  · intro hth c hc
    rw [noiseSimGEthreshold_iff_pair]
    have hbest : ¬ ((NOISE_SIMILARITY_THRESHOLD : ℝ) ≤
        ((best_centroid e (noise_cents labels embs)).1 : ℝ) /
          (Real.sqrt (((best_centroid e (noise_cents labels embs)).2.1 : ℚ) : ℝ) +
            ((noiseSimEps : ℚ) : ℝ))) := by
      intro hcon
      exact hth (hthr.mpr hcon)
    intro hcon
    apply hbest
    exact le_trans hcon (hvalc c hc)
  · rintro ⟨c0, hc0, hth0⟩
    have hth0' := (noiseSimGEthreshold_iff_pair e _).mp hth0
    exact hthr.mpr (le_trans hth0' (hvalc c0 hc0))
  · intro hth
    have hbestge := hthr.mp hth
    rcases hMem with hinit | ⟨cc, hcc, heq0⟩
    · exfalso
      have hinit' : best_centroid e (noise_cents labels embs) = (-noiseSimEps, 0, -1) := hinit
      rw [hinit'] at hbestge
      rw [init_pair_val] at hbestge
      have : ((NOISE_SIMILARITY_THRESHOLD : ℚ) : ℝ) = 2 / 5 := by
        norm_num [NOISE_SIMILARITY_THRESHOLD]
      rw [this] at hbestge
      norm_num at hbestge
    · have heq : best_centroid e (noise_cents labels embs) = simPairOf e cc := heq0
      obtain ⟨c, hc, hgc⟩ := List.mem_map.mp hcc
      refine ⟨c, hc, ?_, ?_, ?_⟩
      · rw [heq, ← hgc]
        rfl
      · rw [noiseSimGEthreshold_iff_pair]
        have : (best_centroid e (noise_cents labels embs)).1 = dotQ e (noise_centroid labels embs c) ∧
            (best_centroid e (noise_cents labels embs)).2.1 =
              normSq e * normSq (noise_centroid labels embs c) := by
          rw [heq, ← hgc]
          exact ⟨rfl, rfl⟩
        rw [← this.1, ← this.2]
        exact hbestge
      · intro c' hc'
        rw [noiseSimLE_iff_pair]
        have hle' := hvalc c' hc'
        have hbeq : pairLE noiseSimEps (best_centroid e (noise_cents labels embs))
            (simPairOf e (0, noise_centroid labels embs c)) := by
          unfold pairLE
          have h1 : (best_centroid e (noise_cents labels embs)).1 =
              dotQ e (noise_centroid labels embs c) := by
            rw [heq, ← hgc]; rfl
          have h2 : (best_centroid e (noise_cents labels embs)).2.1 =
              normSq e * normSq (noise_centroid labels embs c) := by
            rw [heq, ← hgc]; rfl
          rw [h1, h2]
          exact le_refl _
        exact pairLE_trans hle' hbeq

lemma assign_noise_smart_eq_of_noNoise (labels : List ℤ) (embs : List Vec)
    (h1 : labels.all (fun l => l ≠ -1) = true) :
    assign_noise_smart labels embs = labels := by
  unfold assign_noise_smart
  rw [if_pos h1]

lemma assign_noise_smart_eq_of_allNoise (labels : List ℤ) (embs : List Vec)
    (h1 : ¬ labels.all (fun l => l ≠ -1) = true)
    (h2 : labels.all (fun l => l = -1) = true) :
    assign_noise_smart labels embs = labels.map (fun _ => 0) := by
  unfold assign_noise_smart
  rw [if_neg h1, if_pos h2]

/-- C2 (amended): on the density-based branch of `cluster_embeddings`
(more than `SMALL_COLLECTION_THRESHOLD = 25` embeddings), (a) every point
whose final label is noise (`-1`) has guarded cosine similarity below `0.40`
to the centroid of every non-noise base cluster, and (b) every base-noise
point having similarity at least `0.40` to some non-noise centroid is
assigned to a nearest such centroid, which itself is at/above the
threshold.  (On the `3 ≤ n ≤ 25` agglomerative branch no reassignment
happens at all; see the counterexample.) -/
theorem c2_noise_reassignment_large_branch (O : ClusterOracles) (embeddings : List Vec)
    (hn : SMALL_COLLECTION_THRESHOLD < embeddings.length) :
    (∀ i (hr : i < ((cluster_embeddings O embeddings).1).length)
        (he : i < embeddings.length),
        ((cluster_embeddings O embeddings).1).get ⟨i, hr⟩ = -1 →
        ∀ c ∈ nonNoiseIds (hdbscan_base_labels O embeddings),
          ¬ noiseSimGEthreshold (embeddings.get ⟨i, he⟩)
            (noise_centroid (hdbscan_base_labels O embeddings) embeddings c)) ∧
    (∀ i (hb : i < (hdbscan_base_labels O embeddings).length)
        (he : i < embeddings.length)
        (hr : i < ((cluster_embeddings O embeddings).1).length),
        (hdbscan_base_labels O embeddings).get ⟨i, hb⟩ = -1 →
        (∃ c ∈ nonNoiseIds (hdbscan_base_labels O embeddings),
          noiseSimGEthreshold (embeddings.get ⟨i, he⟩)
            (noise_centroid (hdbscan_base_labels O embeddings) embeddings c)) →
        ∃ c ∈ nonNoiseIds (hdbscan_base_labels O embeddings),
          ((cluster_embeddings O embeddings).1).get ⟨i, hr⟩ = c ∧
          noiseSimGEthreshold (embeddings.get ⟨i, he⟩)
            (noise_centroid (hdbscan_base_labels O embeddings) embeddings c) ∧
          ∀ c' ∈ nonNoiseIds (hdbscan_base_labels O embeddings),
            noiseSimLE (embeddings.get ⟨i, he⟩)
              (noise_centroid (hdbscan_base_labels O embeddings) embeddings c')
              (noise_centroid (hdbscan_base_labels O embeddings) embeddings c)) := by
  have hlab := cluster_embeddings_labels_of_large O embeddings hn
  by_cases h1 : (hdbscan_base_labels O embeddings).all (fun l => l ≠ -1) = true
  · -- no noise in the base labels: result is the base labels, no point is -1
    have hres : (cluster_embeddings O embeddings).1 = hdbscan_base_labels O embeddings := by
      rw [hlab, assign_noise_smart_eq_of_noNoise _ _ h1]
    rw [List.all_eq_true] at h1
    constructor
    · intro i hr he hnoise
      exfalso
      have hmem : (-1 : ℤ) ∈ (cluster_embeddings O embeddings).1 := by
        rw [← hnoise]
        exact List.get_mem _ i hr
      rw [hres] at hmem
      have := h1 _ hmem
      simp at this
    · intro i hb he hr hbase
      exfalso
      have hmem : (-1 : ℤ) ∈ hdbscan_base_labels O embeddings := by
        rw [← hbase]
        exact List.get_mem _ i hb
      have := h1 _ hmem
      simp at this
  · by_cases h2 : (hdbscan_base_labels O embeddings).all (fun l => l = -1) = true
    · -- all base labels are noise: result is all zeros and there are no
      -- non-noise ids, so both parts hold vacuously
      have hids : nonNoiseIds (hdbscan_base_labels O embeddings) = [] := by
        by_contra hne
        obtain ⟨c, hc⟩ := List.exists_mem_of_ne_nil _ hne
        obtain ⟨hcl, hcne⟩ := mem_nonNoiseIds.mp hc
        rw [List.all_eq_true] at h2
        have := h2 _ hcl
        simp at this
        exact hcne this
      constructor
      · intro i hr he hnoise c hc
        rw [hids] at hc
        exact absurd hc (List.not_mem_nil c)
      · intro i hb he hr hbase hex
        obtain ⟨c, hc, _⟩ := hex
        rw [hids] at hc
        exact absurd hc (List.not_mem_nil c)
    · -- mixed case: the per-point decision applies
      have hres : (cluster_embeddings O embeddings).1 =
          List.zipWith
            (fun l e =>
              if l = -1 then
                let b := best_centroid e
                  (noise_cents (hdbscan_base_labels O embeddings) embeddings)
                if simGEpair noiseSimEps b.1 b.2.1 NOISE_SIMILARITY_THRESHOLD then b.2.2
                else -1
              else l)
            (hdbscan_base_labels O embeddings) embeddings := by
        rw [hlab, assign_noise_smart_eq_of_mixed _ _ h1 h2]
      have hlen : ∀ i, i < ((cluster_embeddings O embeddings).1).length →
          i < (hdbscan_base_labels O embeddings).length := by
        intro i hi
        rw [hres, List.length_zipWith] at hi
        omega
      have hval : ∀ i (hr : i < ((cluster_embeddings O embeddings).1).length)
          (he : i < embeddings.length),
          ((cluster_embeddings O embeddings).1).get ⟨i, hr⟩ =
            (fun l e =>
              if l = -1 then
                let b := best_centroid e
                  (noise_cents (hdbscan_base_labels O embeddings) embeddings)
                if simGEpair noiseSimEps b.1 b.2.1 NOISE_SIMILARITY_THRESHOLD then b.2.2
                else -1
              else l)
              ((hdbscan_base_labels O embeddings).get ⟨i, hlen i hr⟩)
              (embeddings.get ⟨i, he⟩) := by
        intro i hr he
        simp only [List.get_eq_getElem]
        rw [List.getElem_of_eq hres hr, List.getElem_zipWith]
      constructor
      · intro i hr he hnoise c hc
        obtain ⟨hd1, hd2, hd3⟩ := noise_point_decision (hdbscan_base_labels O embeddings)
          embeddings (embeddings.get ⟨i, he⟩)
        rw [hval i hr he] at hnoise
        simp only [] at hnoise
        by_cases hbase : (hdbscan_base_labels O embeddings).get ⟨i, hlen i hr⟩ = -1
        · rw [hbase, if_pos rfl] at hnoise
          by_cases hth : simGEpair noiseSimEps
              (best_centroid (embeddings.get ⟨i, he⟩)
                (noise_cents (hdbscan_base_labels O embeddings) embeddings)).1
              (best_centroid (embeddings.get ⟨i, he⟩)
                (noise_cents (hdbscan_base_labels O embeddings) embeddings)).2.1
              NOISE_SIMILARITY_THRESHOLD = true
          · exfalso
            obtain ⟨c0, hc0, hbc, _⟩ := hd3 hth
            rw [if_pos hth] at hnoise
            rw [hnoise] at hbc
            obtain ⟨_, hne⟩ := mem_nonNoiseIds.mp hc0
            exact hne hbc.symm
          · exact hd1 hth c hc
        · exfalso
          rw [if_neg hbase] at hnoise
          exact hbase hnoise
      · intro i hb he hr hbase hex
        obtain ⟨hd1, hd2, hd3⟩ := noise_point_decision (hdbscan_base_labels O embeddings)
          embeddings (embeddings.get ⟨i, he⟩)
        have hth := hd2 hex
        obtain ⟨c, hc, hbc, hthr, hmax⟩ := hd3 hth
        refine ⟨c, hc, ?_, hthr, hmax⟩
        rw [hval i hr he]
        have hbase' : (hdbscan_base_labels O embeddings).get ⟨i, hlen i hr⟩ = -1 := by
          rw [← hbase]
        simp only []
        rw [hbase', if_pos rfl, if_pos hth]
        exact hbc

/-- C2 (counterexample): on a 4-row matrix (within the claim's "at least 3
rows"), `cluster_embeddings` takes the agglomerative branch, which never runs
the smart noise reassignment: point 2 (embedding `[8, 15]`) is left as noise
`-1` although its guarded cosine similarity to the centroid `[1, 0]` of the
non-noise cluster `0` is `8 / (17 + 1e-10) ≈ 0.47 ≥ 0.40`. -/
theorem c2_counterexample :
    MIN_FILES_FOR_CLUSTERING ≤ c2E.length ∧
    (cluster_embeddings c2O c2E).1 = [0, 0, -1, -1] ∧
    meanVec (cluster_members ((cluster_embeddings c2O c2E).1) c2E 0) = [1, 0] ∧
    noiseSimGEthreshold [8, 15]
      (meanVec (cluster_members ((cluster_embeddings c2O c2E).1) c2E 0)) := by
  have hlab : (cluster_embeddings c2O c2E).1 = [0, 0, -1, -1] := by decide
  have hmem : cluster_members [0, 0, -1, -1] c2E 0 = [[1, 0], [1, 0]] := by decide
  have hmean : meanVec [[1, 0], [1, 0]] = [1, 0] := by
    norm_num [meanVec, scaleVec, addVec]
  have hcent : meanVec (cluster_members ((cluster_embeddings c2O c2E).1) c2E 0) = [1, 0] := by
    rw [hlab, hmem, hmean]
  refine ⟨by decide, hlab, hcent, ?_⟩
  rw [hcent]
  unfold noiseSimGEthreshold
  have hdot : dotQ [8, 15] [1, 0] = 8 := by norm_num [dotQ]
  have hn1 : normSq ([8, 15] : Vec) = 289 := by norm_num [normSq, dotQ]
  have hn2 : normSq ([1, 0] : Vec) = 1 := by norm_num [normSq, dotQ]
  rw [hdot, hn1, hn2]
  have h289 : Real.sqrt ((289 : ℚ) : ℝ) = 17 := by
    rw [show ((289 : ℚ) : ℝ) = (17 : ℝ) ^ 2 by norm_num]
    exact Real.sqrt_sq (by norm_num)
  have h1 : Real.sqrt ((1 : ℚ) : ℝ) = 1 := by
    rw [show ((1 : ℚ) : ℝ) = (1 : ℝ) by norm_num]
    exact Real.sqrt_one
  rw [h289, h1]
  unfold NOISE_SIMILARITY_THRESHOLD noiseSimEps
  push_cast
  rw [le_div_iff (by norm_num)]
  norm_num

/-- Witness for `c2_noise_reassignment_large_branch` at a concrete input. -/
theorem c2_noise_reassignment_witness :
    SMALL_COLLECTION_THRESHOLD < c2wE.length ∧
    ((∀ i (hr : i < ((cluster_embeddings c2wO c2wE).1).length)
        (he : i < c2wE.length),
        ((cluster_embeddings c2wO c2wE).1).get ⟨i, hr⟩ = -1 →
        ∀ c ∈ nonNoiseIds (hdbscan_base_labels c2wO c2wE),
          ¬ noiseSimGEthreshold (c2wE.get ⟨i, he⟩)
            (noise_centroid (hdbscan_base_labels c2wO c2wE) c2wE c)) ∧
    (∀ i (hb : i < (hdbscan_base_labels c2wO c2wE).length)
        (he : i < c2wE.length)
        (hr : i < ((cluster_embeddings c2wO c2wE).1).length),
        (hdbscan_base_labels c2wO c2wE).get ⟨i, hb⟩ = -1 →
        (∃ c ∈ nonNoiseIds (hdbscan_base_labels c2wO c2wE),
          noiseSimGEthreshold (c2wE.get ⟨i, he⟩)
            (noise_centroid (hdbscan_base_labels c2wO c2wE) c2wE c)) →
        ∃ c ∈ nonNoiseIds (hdbscan_base_labels c2wO c2wE),
          ((cluster_embeddings c2wO c2wE).1).get ⟨i, hr⟩ = c ∧
          noiseSimGEthreshold (c2wE.get ⟨i, he⟩)
            (noise_centroid (hdbscan_base_labels c2wO c2wE) c2wE c) ∧
          ∀ c' ∈ nonNoiseIds (hdbscan_base_labels c2wO c2wE),
            noiseSimLE (c2wE.get ⟨i, he⟩)
              (noise_centroid (hdbscan_base_labels c2wO c2wE) c2wE c')
              (noise_centroid (hdbscan_base_labels c2wO c2wE) c2wE c))) :=
  ⟨by decide, c2_noise_reassignment_large_branch c2wO c2wE (by decide)⟩

/- ### C10: output shapes of `cluster_embeddings` -/

lemma agglomerative_fallback_length (O : ClusterOracles) (embeddings : List Vec)
    (hs : ∀ l, O.skAggO embeddings = some l → l.length = embeddings.length) :
    (agglomerative_fallback O embeddings).length = embeddings.length := by
  unfold agglomerative_fallback
  cases hsk : O.skAggO embeddings with
  | none => simp
  | some raw =>
      simp only [List.length_map]
      exact hs raw hsk

lemma hdbscan_base_labels_length (O : ClusterOracles) (embeddings : List Vec)
    (hh : ∀ l, O.hdbscanO embeddings = some l → l.length = embeddings.length)
    (hs : ∀ l, O.skAggO embeddings = some l → l.length = embeddings.length) :
    (hdbscan_base_labels O embeddings).length = embeddings.length := by
  unfold hdbscan_base_labels run_hdbscan
  cases hhd : O.hdbscanO embeddings with
  | none =>
      simp only []
      split
      · exact agglomerative_fallback_length O embeddings hs
      · exact agglomerative_fallback_length O embeddings hs
  | some l0 =>
      simp only []
      split
      · exact agglomerative_fallback_length O embeddings hs
      · exact hh l0 hhd

lemma assign_noise_smart_length (labels : List ℤ) (embs : List Vec)
    (h : labels.length = embs.length) :
    (assign_noise_smart labels embs).length = labels.length := by
  unfold assign_noise_smart
  split
  · rfl
  · split
    · simp
    · rw [List.length_zipWith]
      omega

/-- C10 (amended): `cluster_embeddings` returns one label per embedding for
every `N` (including `N = 0`), and one 2D coordinate pair per embedding for
every `N ≥ 1`; for `N = 0`, however, the coordinate array has one row
(`[[0.0, 0.0]]`), not zero.  Oracle hypotheses record the shape contracts of
the external HDBSCAN / sklearn / UMAP / PCA calls (one output row per input
row). -/
theorem c10_output_shapes (O : ClusterOracles) (embeddings : List Vec)
    (hh : ∀ l, O.hdbscanO embeddings = some l → l.length = embeddings.length)
    (hs : ∀ l, O.skAggO embeddings = some l → l.length = embeddings.length)
    (hu : ∀ cs, O.umapO embeddings = some cs → cs.length = embeddings.length)
    (hp : (O.pcaO embeddings).length = embeddings.length) :
    ((cluster_embeddings O embeddings).1).length = embeddings.length ∧
    (embeddings.length = 0 → ((cluster_embeddings O embeddings).2).length = 1) ∧
    (1 ≤ embeddings.length →
      ((cluster_embeddings O embeddings).2).length = embeddings.length) := by
  have humap : (umap_2d O embeddings).length = embeddings.length := by
    unfold umap_2d
    cases hum : O.umapO embeddings with
    | none => exact hp
    | some cs => exact hu cs hum
  unfold cluster_embeddings
  by_cases h3 : embeddings.length < MIN_FILES_FOR_CLUSTERING
  · rw [if_pos h3]
    refine ⟨by simp, ?_, ?_⟩
    · intro h0
      unfold simple_2d
      rw [if_pos (by omega)]
      rfl
    · intro h1
      unfold simple_2d
      unfold MIN_FILES_FOR_CLUSTERING at h3
      by_cases hn1 : embeddings.length ≤ 1
      · rw [if_pos hn1]
        simp
        omega
      · rw [if_neg hn1, if_pos (by omega)]
        simp
        omega
  · rw [if_neg h3]
    by_cases h25 : embeddings.length ≤ SMALL_COLLECTION_THRESHOLD
    · rw [if_pos h25]
      refine ⟨agglomerative_fallback_length O embeddings hs, ?_, fun _ => humap⟩
      intro h0
      unfold MIN_FILES_FOR_CLUSTERING at h3
      omega
    · rw [if_neg h25]
      have hbase := hdbscan_base_labels_length O embeddings hh hs
      refine ⟨?_, ?_, fun _ => humap⟩
      · rw [assign_noise_smart_length _ _ hbase, hbase]
      · intro h0
        unfold SMALL_COLLECTION_THRESHOLD at h25
        omega

/-- C10 (counterexample): on the empty matrix (`N = 0`),
`cluster_embeddings` returns 0 labels but 1 coordinate row (`[[0.0, 0.0]]`
from `_simple_2d`), so the "one coordinate pair per input embedding,
including `N = 0`" claim fails. -/
theorem c10_counterexample :
    ((cluster_embeddings c10O []).1).length = 0 ∧
    ((cluster_embeddings c10O []).2).length = 1 ∧
    (cluster_embeddings c10O []).2 = [(0, 0)] := by
  refine ⟨by decide, by decide, by decide⟩

/-- Witness for `c10_output_shapes` at a concrete one-row input. -/
theorem c10_output_shapes_witness :
    (∀ l, c10wO.hdbscanO [[1]] = some l → l.length = ([[1]] : List Vec).length) ∧
    ((cluster_embeddings c10wO [[1]]).1).length = ([[1]] : List Vec).length ∧
    (([[1]] : List Vec).length = 0 → ((cluster_embeddings c10wO [[1]]).2).length = 1) ∧
    (1 ≤ ([[1]] : List Vec).length →
      ((cluster_embeddings c10wO [[1]]).2).length = ([[1]] : List Vec).length) :=
  ⟨fun l h => by simp [c10wO] at h,
    c10_output_shapes c10wO [[1]]
      (fun l h => by simp [c10wO] at h)
      (fun l h => by simp [c10wO] at h)
      (fun cs h => by simp [c10wO] at h)
      (by decide)⟩

lemma zero_eps_denom_pos {p : ℚ} (hp : (0:ℚ) < p) :
    (0:ℝ) < Real.sqrt ((p : ℚ) : ℝ) + (((0:ℚ)) : ℝ) := by
  have hp' : (0:ℝ) < ((p : ℚ) : ℝ) := by exact_mod_cast hp
  have hc : (((0:ℚ)) : ℝ) = 0 := by norm_num
  rw [hc, add_zero]
  exact Real.sqrt_pos.mpr hp'

/-- Core invariant of the fold in `best_cluster` (the skip-on-zero-norm,
guardless variant used by `try_incremental_assign`). -/
lemma best_cluster_fold_spec (emb : Vec) (cents : List (ℤ × Vec)) :
    ∀ acc : ℚ × ℚ × ℤ, 0 < acc.2.1 →
      0 < (cents.foldl (incr_step emb) acc).2.1 ∧
      pairLE 0 acc (cents.foldl (incr_step emb) acc) ∧
      (∀ cc ∈ cents, normSq emb * normSq (padTruncate cc.2 emb.length) ≠ 0 →
        pairLE 0 (incrPairOf emb cc) (cents.foldl (incr_step emb) acc)) ∧
      ((cents.foldl (incr_step emb) acc) = acc ∨
        ∃ cc ∈ cents, normSq emb * normSq (padTruncate cc.2 emb.length) ≠ 0 ∧
          (cents.foldl (incr_step emb) acc) = incrPairOf emb cc) := by
  induction cents with
  | nil =>
      intro acc hacc
      refine ⟨hacc, pairLE_refl _ _, ?_, Or.inl rfl⟩
      intro cc hcc
      exact absurd hcc (List.not_mem_nil cc)
  | cons cc rest ih =>
      intro acc hacc
      simp only [List.foldl_cons]
      by_cases hz : normSq emb * normSq (padTruncate cc.2 emb.length) = 0
      · have hstep : incr_step emb acc cc = acc := by
          unfold incr_step
          rw [if_pos hz]
        rw [hstep]
        obtain ⟨h0, hLE, hAll, hMem⟩ := ih acc hacc
        refine ⟨h0, hLE, ?_, ?_⟩
        · intro cc' hcc' hnz'
          rcases List.mem_cons.mp hcc' with hh | ht
          · rw [hh] at hnz'
            exact absurd hz hnz'
          · exact hAll cc' ht hnz'
        · rcases hMem with heq | ⟨cc', hcc', hnz', heq⟩
          · exact Or.inl heq
          · exact Or.inr ⟨cc', List.mem_cons_of_mem cc hcc', hnz', heq⟩
      · have hp : (0:ℚ) < normSq emb * normSq (padTruncate cc.2 emb.length) :=
          lt_of_le_of_ne (mul_nonneg (normSq_nonneg _) (normSq_nonneg _)) (Ne.symm hz)
        have hbridge := simLTpair_iff 0 acc.1 acc.2.1
          (dotQ emb (padTruncate cc.2 emb.length))
          (normSq emb * normSq (padTruncate cc.2 emb.length))
          (le_of_lt hacc) (le_of_lt hp)
          (zero_eps_denom_pos hacc) (zero_eps_denom_pos hp)
        by_cases hs : simLTpair 0 acc.1 acc.2.1
            (dotQ emb (padTruncate cc.2 emb.length))
            (normSq emb * normSq (padTruncate cc.2 emb.length)) = true
        · have hlt := hbridge.mp hs
          have hstep : incr_step emb acc cc = incrPairOf emb cc := by
            unfold incr_step incrPairOf
            rw [if_neg hz, if_pos hs]
          rw [hstep]
          obtain ⟨h0, hLE, hAll, hMem⟩ := ih (incrPairOf emb cc) hp
          refine ⟨h0, le_trans (le_of_lt hlt) hLE, ?_, ?_⟩
          · intro cc' hcc' hnz'
            rcases List.mem_cons.mp hcc' with hh | ht
            · rw [hh]
              exact hLE
            · exact hAll cc' ht hnz'
          · rcases hMem with heq | ⟨cc', hcc', hnz', heq⟩
            · exact Or.inr ⟨cc, List.mem_cons_self cc rest, hz, heq⟩
            · exact Or.inr ⟨cc', List.mem_cons_of_mem cc hcc', hnz', heq⟩
        · have hge : (dotQ emb (padTruncate cc.2 emb.length) : ℝ) /
              (Real.sqrt ((normSq emb * normSq (padTruncate cc.2 emb.length) : ℚ) : ℝ) +
                (((0:ℚ)) : ℝ)) ≤
              (acc.1 : ℝ) / (Real.sqrt ((acc.2.1 : ℚ) : ℝ) + (((0:ℚ)) : ℝ)) := by
            by_contra hcon
            push_neg at hcon
            exact hs (hbridge.mpr hcon)
          have hstep : incr_step emb acc cc = acc := by
            unfold incr_step
            rw [if_neg hz, if_neg hs]
          rw [hstep]
          obtain ⟨h0, hLE, hAll, hMem⟩ := ih acc hacc
          refine ⟨h0, hLE, ?_, ?_⟩
          · intro cc' hcc' hnz'
            rcases List.mem_cons.mp hcc' with hh | ht
            · rw [hh]
              exact pairLE_trans hge hLE
            · exact hAll cc' ht hnz'
          · rcases hMem with heq | ⟨cc', hcc', hnz', heq⟩
            · exact Or.inl heq
            · exact Or.inr ⟨cc', List.mem_cons_of_mem cc hcc', hnz', heq⟩

lemma cosSimGE_iff_pair (e c : Vec) (t : ℚ) :
    cosSimGE e c t ↔ (t : ℝ) ≤ (dotQ e c : ℝ) /
      (Real.sqrt ((normSq e * normSq c : ℚ) : ℝ) + (((0:ℚ)) : ℝ)) := by
  unfold cosSimGE
  rw [sqrt_cast_mul _ _ (normSq_nonneg e)]
  norm_num

lemma cosSimLE_iff_pair (e c c' : Vec) :
    cosSimLE e c c' ↔
      pairLE 0 (dotQ e c, normSq e * normSq c, (0:ℤ))
        (dotQ e c', normSq e * normSq c', (0:ℤ)) := by
  unfold cosSimLE pairLE
  rw [sqrt_cast_mul _ _ (normSq_nonneg e), sqrt_cast_mul _ _ (normSq_nonneg e)]
  norm_num

lemma incr_init_val :
    ((-1 : ℚ) : ℝ) / (Real.sqrt (((1:ℚ)) : ℝ) + (((0:ℚ)) : ℝ)) = -1 := by
  have h1 : (((1:ℚ)) : ℝ) = 1 := by norm_num
  rw [h1, Real.sqrt_one]
  norm_num

/-- C6 (confirmed): given at least one cluster and a file with a nonzero
embedding, `try_incremental_assign` returns `False` (modelled `none`) exactly
when every considered centroid (live or stored, after pad/truncate
reconciliation, skipping zero norms) has cosine similarity below `0.40`; and
when it returns `True` (modelled `some cid`), `cid` is a considered cluster
whose centroid similarity is at least `0.40` and maximal among all considered
centroids. -/
theorem c6_incremental_assign_threshold
    (clusters : List ClusterRec) (files : List FileRec) (file_id : ℤ)
    (f : FileRec) (emb : Vec)
    (hcl : clusters ≠ [])
    (hf : files.find? (fun x => x.id = file_id) = some f)
    (hemb : f.embedding = some emb)
    (hnz : anyNonzero emb = true) :
    (try_incremental_assign clusters files file_id = none ↔
      ∀ cc ∈ live_centroids clusters files file_id,
        normSq emb * normSq (padTruncate cc.2 emb.length) ≠ 0 →
        ¬ cosSimGE emb (padTruncate cc.2 emb.length) NOISE_SIMILARITY_THRESHOLD) ∧
    (∀ cid, try_incremental_assign clusters files file_id = some cid →
      ∃ cc ∈ live_centroids clusters files file_id, cc.1 = cid ∧
        normSq emb * normSq (padTruncate cc.2 emb.length) ≠ 0 ∧
        cosSimGE emb (padTruncate cc.2 emb.length) NOISE_SIMILARITY_THRESHOLD ∧
        ∀ cc' ∈ live_centroids clusters files file_id,
          normSq emb * normSq (padTruncate cc'.2 emb.length) ≠ 0 →
          cosSimLE emb (padTruncate cc'.2 emb.length) (padTruncate cc.2 emb.length)) := by
  have hres : try_incremental_assign clusters files file_id =
      (if live_centroids clusters files file_id = [] then none
       else
         let b := best_cluster emb (live_centroids clusters files file_id)
         if simGEpair 0 b.1 b.2.1 NOISE_SIMILARITY_THRESHOLD then some b.2.2 else none) := by
    unfold try_incremental_assign
    rw [if_neg hcl]
    simp only [hf, hemb]
    rw [if_neg (by simp [hnz])]
  by_cases hce : live_centroids clusters files file_id = []
  · rw [hce] at hres
    rw [if_pos rfl] at hres
    constructor
    · rw [hres]
      constructor
      · intro _ cc hcc
        rw [hce] at hcc
        exact absurd hcc (List.not_mem_nil cc)
      · intro _
        rfl
    · intro cid hcid
      rw [hres] at hcid
      exact absurd hcid (by simp)
  · rw [if_neg hce] at hres
    obtain ⟨h0, hLEinit, hAll, hMem⟩ :=
      best_cluster_fold_spec emb (live_centroids clusters files file_id)
        (-1, 1, -1) (by norm_num)
    have hthr := simGEpair_iff 0 (best_cluster emb (live_centroids clusters files file_id)).1
      (best_cluster emb (live_centroids clusters files file_id)).2.1
      NOISE_SIMILARITY_THRESHOLD (le_of_lt h0) (zero_eps_denom_pos h0)
    have htnotneg : ¬ ((NOISE_SIMILARITY_THRESHOLD : ℝ) ≤ (-1 : ℝ)) := by
      norm_num [NOISE_SIMILARITY_THRESHOLD]
    by_cases hth : simGEpair 0
        (best_cluster emb (live_centroids clusters files file_id)).1
        (best_cluster emb (live_centroids clusters files file_id)).2.1
        NOISE_SIMILARITY_THRESHOLD = true
    · -- above threshold: returns `some`, and the best entry is an argmax
      have hbestge := hthr.mp hth
      have hnotinit : ¬ (best_cluster emb (live_centroids clusters files file_id) =
          ((-1 : ℚ), (1 : ℚ), (-1 : ℤ))) := by
        intro hinit
        rw [hinit] at hbestge
        simp only [] at hbestge
        rw [incr_init_val] at hbestge
        exact htnotneg hbestge
      have hmem : ∃ cc ∈ live_centroids clusters files file_id,
          normSq emb * normSq (padTruncate cc.2 emb.length) ≠ 0 ∧
          best_cluster emb (live_centroids clusters files file_id) = incrPairOf emb cc := by
        rcases hMem with hinit | h
        · exact absurd hinit hnotinit
        · exact h
      obtain ⟨cc, hcc, hccnz, hcceq⟩ := hmem
      have hbval1 : (best_cluster emb (live_centroids clusters files file_id)).1 =
          dotQ emb (padTruncate cc.2 emb.length) := by
        rw [hcceq]; rfl
      have hbval2 : (best_cluster emb (live_centroids clusters files file_id)).2.1 =
          normSq emb * normSq (padTruncate cc.2 emb.length) := by
        rw [hcceq]; rfl
      have hbval3 : (best_cluster emb (live_centroids clusters files file_id)).2.2 = cc.1 := by
        rw [hcceq]; rfl
      constructor
      · rw [hres, if_pos hth]
        constructor
        · intro hc
          exact absurd hc (by simp)
        · intro hall
          exfalso
          apply hall cc hcc hccnz
          rw [cosSimGE_iff_pair]
          rw [hbval1, hbval2] at hbestge
          exact hbestge
      · intro cid hcid
        rw [hres, if_pos hth] at hcid
        simp only [Option.some.injEq] at hcid
        refine ⟨cc, hcc, ?_, hccnz, ?_, ?_⟩
        · rw [← hcid, hbval3]
        · rw [cosSimGE_iff_pair]
          rw [hbval1, hbval2] at hbestge
          exact hbestge
        · intro cc' hcc' hnz'
          rw [cosSimLE_iff_pair]
          have h1' : pairLE 0 (incrPairOf emb cc')
              (best_cluster emb (live_centroids clusters files file_id)) :=
            hAll cc' hcc' hnz'
          rw [hcceq] at h1'
          exact h1'
    · -- below threshold: returns `none`, and every considered centroid is below
      have hbestlt : ¬ ((NOISE_SIMILARITY_THRESHOLD : ℝ) ≤
          ((best_cluster emb (live_centroids clusters files file_id)).1 : ℝ) /
            (Real.sqrt (((best_cluster emb
              (live_centroids clusters files file_id)).2.1 : ℚ) : ℝ) + (((0:ℚ)) : ℝ))) := by
        intro hcon
        exact hth (hthr.mpr hcon)
      constructor
      · rw [hres, if_neg hth]
        constructor
        · intro _ cc hcc hccnz
          rw [cosSimGE_iff_pair]
          intro hcon
          apply hbestlt
          have h1 := hAll cc hcc hccnz
          unfold pairLE incrPairOf at h1
          simp only [] at h1
          exact le_trans hcon h1
        · intro _
          rfl
      · intro cid hcid
        rw [hres, if_neg hth] at hcid
        exact absurd hcid (by simp)

/-- Witness for `c6_incremental_assign_threshold` at a concrete input. -/
theorem c6_incremental_assign_witness :
    c6clusters ≠ [] ∧ anyNonzero [1, 0] = true ∧
    (try_incremental_assign c6clusters c6files 1 = none ↔
      ∀ cc ∈ live_centroids c6clusters c6files 1,
        normSq [1, 0] * normSq (padTruncate cc.2 ([1, 0] : Vec).length) ≠ 0 →
        ¬ cosSimGE [1, 0] (padTruncate cc.2 ([1, 0] : Vec).length)
          NOISE_SIMILARITY_THRESHOLD) :=
  ⟨by decide, by decide,
    (c6_incremental_assign_threshold c6clusters c6files 1 c6file [1, 0]
      (by decide) (by decide) rfl (by decide)).1⟩

/-- C3 (counterexample): `get_embedding` does not normalise the provider's
vector.  With a provider returning `[2]` on the non-empty text `"hello"`, the
returned vector is `[2]`, whose squared L2 norm is `4 ≠ 1`. -/
theorem c3_counterexample :
    ("hello" : String) ≠ "" ∧
    (get_embedding (fun _ => some [2]) 768 "hello").1 = [2] ∧
    normSq (get_embedding (fun _ => some [2]) 768 "hello").1 ≠ 1 := by
  have hv : (get_embedding (fun _ => some [2]) 768 "hello").1 = [2] := by decide
  refine ⟨by decide, hv, ?_⟩
  rw [hv]
  norm_num [normSq, dotQ]

/-- C3 (amended): for every non-blank text, `get_embedding` calls the active
provider on the head-and-tail truncation of the text and returns the
provider's float32 vector unchanged (no normalisation is performed); on
provider failure it returns an all-zero vector of the expected dimension and
marks the active provider unhealthy. -/
theorem c3_get_embedding_behavior (provider : String → Option Vec)
    (expectedDim : ℕ) (text : String)
    (hne : ¬ (text = "" ∨ pyStrip text = "")) :
    (∀ emb, provider (truncate_text text) = some emb →
      get_embedding provider expectedDim text = (emb, some true)) ∧
    (provider (truncate_text text) = none →
      get_embedding provider expectedDim text =
        (List.replicate expectedDim 0, some false)) ∧
    (pyLength text ≤ MAX_CHARS → truncate_text text = text) ∧
    (MAX_CHARS < pyLength text →
      truncate_text text =
        pyTake text (MAX_CHARS / 2) ++ "\n...\n" ++ pyTakeRight text (MAX_CHARS / 2)) := by
  refine ⟨?_, ?_, ?_, ?_⟩
  · intro emb hp
    unfold get_embedding
    rw [if_neg hne, hp]
  · intro hp
    unfold get_embedding
    rw [if_neg hne, hp]
  · intro hle
    unfold truncate_text
    rw [if_pos hle]
  · intro hgt
    unfold truncate_text
    rw [if_neg (by omega)]

/-- Witness for `c3_get_embedding_behavior` at a concrete input. -/
theorem c3_get_embedding_witness :
    ¬ (("hi" : String) = "" ∨ pyStrip "hi" = "") ∧
    (∀ emb, (fun (_ : String) => some ([3] : Vec)) (truncate_text "hi") = some emb →
      get_embedding (fun _ => some [3]) 5 "hi" = (emb, some true)) :=
  ⟨by decide,
    (c3_get_embedding_behavior (fun _ => some [3]) 5 "hi" (by decide)).1⟩

set_option maxRecDepth 100000 in
/-- C9 (counterexample): with a failing LLM, `generate_summary` on a
201-character text returns the first 200 characters **plus `"..."`** (203
characters), not exactly the first 200 characters of the text. -/
theorem c9_counterexample :
    generate_summary "ollama" "" (fun _ => none) c9text ≠ pyTake c9text 200 ∧
    generate_summary "ollama" "" (fun _ => none) c9text =
      pyTake c9text 200 ++ "..." := by
  constructor
  · decide
  · decide

/-- C9 (amended): whenever the LLM call fails, `generate_summary` returns
the first 200 characters of the *stripped* text, with `"..."` appended when
the stripped text exceeds 200 characters (this also covers the short-text
and missing-API-key paths, which use the same fallback). -/
theorem c9_fallback_first200 (provider apiKey : String)
    (llm : String → Option String) (text : String)
    (hfail : llm (pyTake text 3000) = none) :
    generate_summary provider apiKey llm text =
      (if 200 < pyLength (pyStrip text) then pyTake (pyStrip text) 200 ++ "..."
       else pyTake (pyStrip text) 200) := by
  have hfb : fallback_summary text =
      (if 200 < pyLength (pyStrip text) then pyTake (pyStrip text) 200 ++ "..."
       else pyTake (pyStrip text) 200) := by
    unfold fallback_summary
    by_cases hc : pyStrip text = ""
    · rw [if_pos hc, hc]
      decide
    · rw [if_neg hc]
      by_cases hlen : pyLength (pyStrip text) ≤ 200
      · rw [if_pos hlen, if_neg (by omega)]
      · rw [if_neg hlen, if_pos (by omega)]
  unfold generate_summary
  by_cases h1 : text = "" ∨ pyLength (pyStrip text) < 50
  · rw [if_pos h1]
    exact hfb
  · rw [if_neg h1]
    by_cases h2 : provider = "openai"
    · rw [if_pos h2]
      by_cases h3 : apiKey = ""
      · rw [if_pos h3]
        exact hfb
      · rw [if_neg h3]
        simp only [hfail]
        exact hfb
    · rw [if_neg h2]
      simp only [hfail]
      exact hfb

/-- Witness for `c9_fallback_first200` at a concrete input. -/
theorem c9_fallback_witness :
    ((fun (_ : String) => (none : Option String)) (pyTake c9text 3000) = none) ∧
    generate_summary "ollama" "k" (fun _ => none) c9text =
      (if 200 < pyLength (pyStrip c9text) then pyTake (pyStrip c9text) 200 ++ "..."
       else pyTake (pyStrip c9text) 200) :=
  ⟨rfl, c9_fallback_first200 "ollama" "k" (fun _ => none) c9text rfl⟩

/-- C4 (counterexample): `extract` raises on a missing path (`path.stat()`
and `compute_hash` run before any guarded extraction), so "for every path,
extract never raises" fails; and for a `.txt` file whose text extraction
fails, the result has `page_count = 1`, not zero. -/
theorem c4_counterexample :
    extract c4fs (fun _ => "h") c4Ox "missing.txt" = Except.error () ∧
    extract c4fs (fun _ => "h") c4Ox "root/doc.txt" =
      Except.ok
        { text := "", word_count := 0, page_count := 1, file_type := "txt",
          content_hash := "h", size_bytes := 1 } := by
  constructor
  · rfl
  · rfl

/-- C4 (amended): for every path whose bytes are readable, `extract` never
raises: it returns a result whose content hash is the hash of the byte
stream, computed independently of the format-extraction oracles (so a
zero-text result still carries the stable hash), whose size is the byte
count, and whose word count is zero whenever the text is empty; a failed PDF
extraction yields empty text with zero word and page counts, while a failed
text-family extraction yields empty text, zero words, and page count 1. -/
theorem c4_extract_behavior (fs : String → Option (List ℕ))
    (hashFn : List ℕ → String) (Ox : ExtractOracles) (path : String)
    (bytes : List ℕ) (hfs : fs path = some bytes) :
    ∃ r, extract fs hashFn Ox path = Except.ok r ∧
      r.content_hash = hashFn bytes ∧
      r.size_bytes = bytes.length ∧
      (r.text = "" → r.word_count = 0) ∧
      (∀ Ox' : ExtractOracles, ∃ r', extract fs hashFn Ox' path = Except.ok r' ∧
        r'.content_hash = hashFn bytes) ∧
      (pyLower (path_suffix path) = ".pdf" → Ox.pdfO path = none →
        r.text = "" ∧ r.word_count = 0 ∧ r.page_count = 0) ∧
      ((pyLower (path_suffix path) = ".txt" ∨ pyLower (path_suffix path) = ".text" ∨
          pyLower (path_suffix path) = ".rst") → Ox.txtO path = none →
        r.text = "" ∧ r.word_count = 0 ∧ r.page_count = 1) := by
  have hext : extract fs hashFn Ox path = Except.ok
      { text := (extract_dispatch Ox path (pyLower (path_suffix path))).1
        word_count := word_count_of (extract_dispatch Ox path (pyLower (path_suffix path))).1
        page_count := (extract_dispatch Ox path (pyLower (path_suffix path))).2
        file_type := String.mk ((pyLower (path_suffix path)).data.dropWhile (fun c => c = '.'))
        content_hash := hashFn bytes
        size_bytes := bytes.length } := by
    unfold extract
    rw [hfs]
  refine ⟨_, hext, rfl, rfl, ?_, ?_, ?_, ?_⟩
  · intro h
    show word_count_of (extract_dispatch Ox path (pyLower (path_suffix path))).1 = 0
    have h' : (extract_dispatch Ox path (pyLower (path_suffix path))).1 = "" := h
    rw [word_count_of, h']
    rfl
  · intro Ox'
    have hext' : extract fs hashFn Ox' path = Except.ok
        { text := (extract_dispatch Ox' path (pyLower (path_suffix path))).1
          word_count := word_count_of (extract_dispatch Ox' path (pyLower (path_suffix path))).1
          page_count := (extract_dispatch Ox' path (pyLower (path_suffix path))).2
          file_type := String.mk ((pyLower (path_suffix path)).data.dropWhile (fun c => c = '.'))
          content_hash := hashFn bytes
          size_bytes := bytes.length } := by
      unfold extract
      rw [hfs]
    exact ⟨_, hext', rfl⟩
  · intro hsuf hpdf
    have hdp : extract_dispatch Ox path (pyLower (path_suffix path)) = ("", 0) := by
      rw [hsuf]
      unfold extract_dispatch
      rw [if_pos rfl, hpdf]
    refine ⟨?_, ?_, ?_⟩
    · show (extract_dispatch Ox path (pyLower (path_suffix path))).1 = ""
      rw [hdp]
    · show word_count_of (extract_dispatch Ox path (pyLower (path_suffix path))).1 = 0
      rw [hdp]
      rfl
    · show (extract_dispatch Ox path (pyLower (path_suffix path))).2 = 0
      rw [hdp]
  · intro hsuf htxt
    have hdp : extract_dispatch Ox path (pyLower (path_suffix path)) = ("", 1) := by
      rcases hsuf with h | h | h <;>
        (rw [h]; unfold extract_dispatch;
         rw [if_neg (by decide), if_pos (by simp), htxt]; rfl)
    refine ⟨?_, ?_, ?_⟩
    · show (extract_dispatch Ox path (pyLower (path_suffix path))).1 = ""
      rw [hdp]
    · show word_count_of (extract_dispatch Ox path (pyLower (path_suffix path))).1 = 0
      rw [hdp]
      rfl
    · show (extract_dispatch Ox path (pyLower (path_suffix path))).2 = 1
      rw [hdp]

/-- Witness for `c4_extract_behavior` at a concrete input. -/
theorem c4_extract_witness :
    c4fs "root/doc.txt" = some [65] ∧
    ∃ r, extract c4fs (fun _ => "h") c4Ox "root/doc.txt" = Except.ok r ∧
      r.content_hash = (fun (_ : List ℕ) => "h") [65] ∧
      r.size_bytes = ([65] : List ℕ).length ∧
      (r.text = "" → r.word_count = 0) ∧
      (∀ Ox' : ExtractOracles,
        ∃ r', extract c4fs (fun _ => "h") Ox' "root/doc.txt" = Except.ok r' ∧
          r'.content_hash = (fun (_ : List ℕ) => "h") [65]) ∧
      (pyLower (path_suffix "root/doc.txt") = ".pdf" → c4Ox.pdfO "root/doc.txt" = none →
        r.text = "" ∧ r.word_count = 0 ∧ r.page_count = 0) ∧
      ((pyLower (path_suffix "root/doc.txt") = ".txt" ∨
          pyLower (path_suffix "root/doc.txt") = ".text" ∨
          pyLower (path_suffix "root/doc.txt") = ".rst") →
        c4Ox.txtO "root/doc.txt" = none →
        r.text = "" ∧ r.word_count = 0 ∧ r.page_count = 1) :=
  ⟨by decide, c4_extract_behavior c4fs (fun _ => "h") c4Ox "root/doc.txt" [65] (by decide)⟩

/-- C1 (code bug): `remove_file`'s docstring promises "if the same content
hash exists at another valid path, the file was moved — not deleted", but the
code only consults the single highest-id row for the hash
(`get_file_by_hash`).  Here record 1 shares hash `H` with record 2 and lives
at `root/P2`, which exists on disk; yet `remove_file("root/P1")` looks up the
hash, gets record 2 itself (highest id), skips neither guard, and deletes
record 2, appending `file_removed`. -/
theorem c1_remove_file_deletes_despite_sibling_hash :
    (c1A.content_hash = c1B.content_hash ∧ c1A.id ≠ c1B.id ∧
      c1disk c1A.current_path = true) ∧
    get_file_by_path c1store.files "root/P1" = some c1B ∧
    (remove_file c1disk c1store "root/P1").files = [c1A] ∧
    (remove_file c1disk c1store "root/P1").events = [(2, "file_removed", "P1")] := by
  refine ⟨⟨rfl, by decide, rfl⟩, by decide, by decide, by decide⟩

/-- C5 (amended): a supported file that exists on disk but whose extraction
yields empty (whitespace-only) text is rejected outright by `process_file`:
it returns `None` and leaves the store unchanged — no record is ingested and
no event is appended. -/
theorem c5_process_file_rejects_empty_text (fs : String → Option (List ℕ))
    (hashFn : List ℕ → String) (Ox : ExtractOracles) (embedO : String → Vec)
    (sumO : String → String) (now : String) (st : Store) (path : String)
    (result : ExtractionResult)
    (hsup : is_supported path = true)
    (hex : (fs path).isSome)
    (hres : extract fs hashFn Ox path = Except.ok result)
    (hempty : pyStrip result.text = "") :
    process_file fs hashFn Ox embedO sumO now st path = (none, st) := by
  unfold process_file
  rw [if_neg (by simp [hsup, Option.isNone_iff_eq_none]; intro hcon; rw [hcon] at hex; simp at hex)]
  simp only [hres]
  rw [if_pos hempty]

/-- C5 (counterexample): `"root/a.txt"` is supported, exists on disk, and
its extraction succeeds with whitespace-only text; `process_file` returns
`None` with the store unchanged — it does **not** ingest the file with the
summary falling back to the filename. -/
theorem c5_counterexample :
    is_supported "root/a.txt" = true ∧
    (c5fs "root/a.txt").isSome = true ∧
    (∃ result, extract c5fs (fun _ => "h") c5Ox "root/a.txt" = Except.ok result ∧
      pyStrip result.text = "") ∧
    process_file c5fs (fun _ => "h") c5Ox (fun _ => [1]) (fun _ => "s") "t0"
      c5store "root/a.txt" = (none, c5store) := by
  refine ⟨by decide, by decide, ⟨_, rfl, by decide⟩, by decide⟩

/-- Witness for `c5_process_file_rejects_empty_text` at a concrete input. -/
theorem c5_reject_empty_witness :
    is_supported "root/a.txt" = true ∧
    process_file c5fs (fun _ => "h") c5Ox (fun _ => [1]) (fun _ => "s") "t0"
      c5store "root/a.txt" = (none, c5store) :=
  ⟨by decide,
    c5_process_file_rejects_empty_text c5fs (fun _ => "h") c5Ox (fun _ => [1])
      (fun _ => "s") "t0" c5store "root/a.txt"
      { text := " ", word_count := 0, page_count := 1, file_type := "txt",
        content_hash := "h", size_bytes := 1 }
      (by decide) (by decide) rfl (by decide)⟩

lemma sync_step_none_fs (moveFail : String → String → Bool) (root : String)
    (names : List (ℤ × String)) (fs : List String) (e : PlanEntry)
    (h : (sync_step moveFail root names fs e).2 = none) :
    (sync_step moveFail root names fs e).1 = fs := by
  unfold sync_step at h ⊢
  cases hsrc : sync_source fs e root with
  | none => simp [hsrc]
  | some source =>
      simp only [hsrc] at h ⊢
      by_cases heq : source = root ++ "/" ++ lookup_name names e.cluster_id ++ "/" ++ e.filename
      · simp [heq]
      · simp only [if_neg heq] at h ⊢
        by_cases hmf : moveFail source (sync_target fs
            (root ++ "/" ++ lookup_name names e.cluster_id) e.filename) = true
        · simp [hmf]
        · simp only [hmf] at h
          simp at h

lemma sync_step_some_fs (moveFail : String → String → Bool) (root : String)
    (names : List (ℤ × String)) (fs : List String) (e : PlanEntry) (m : MoveRec)
    (h : (sync_step moveFail root names fs e).2 = some m) :
    (sync_step moveFail root names fs e).1 = (fs.erase m.from_path) ++ [m.to_path] := by
  unfold sync_step at h ⊢
  cases hsrc : sync_source fs e root with
  | none => simp [hsrc] at h
  | some source =>
      simp only [hsrc] at h ⊢
      by_cases heq : source = root ++ "/" ++ lookup_name names e.cluster_id ++ "/" ++ e.filename
      · simp [heq] at h
      · simp only [if_neg heq] at h ⊢
        by_cases hmf : moveFail source (sync_target fs
            (root ++ "/" ++ lookup_name names e.cluster_id) e.filename) = true
        · simp [hmf] at h
        · simp only [hmf] at h ⊢
          simp only [Bool.false_eq_true, if_false] at h ⊢
          obtain ⟨rfl⟩ : m = ⟨e.file_id, source, sync_target fs
              (root ++ "/" ++ lookup_name names e.cluster_id) e.filename⟩ := by
            cases h
            rfl
          rfl

/-- C8 (confirmed): for every plan entry the move source is the first
existing path among current_path, original_path, root/filename (empty paths
never considered); an entry with no existing source is skipped and the batch
continues unchanged; every recorded move carries the selected source and the
entry's file id; and the returned move list accounts exactly for the
filesystem changes performed (replaying it reproduces the final filesystem,
and failed or skipped moves appear nowhere). -/
theorem c8_sync_files_to_folders_spec (moveFail : String → String → Bool)
    (root : String) (names : List (ℤ × String)) :
    (∀ (fs : List String) (e : PlanEntry), e.current_path ≠ "" →
      e.current_path ∈ fs → sync_source fs e root = some e.current_path) ∧
    (∀ (fs : List String) (e : PlanEntry),
      ¬ (e.current_path ≠ "" ∧ e.current_path ∈ fs) → e.original_path ≠ "" →
      e.original_path ∈ fs → sync_source fs e root = some e.original_path) ∧
    (∀ (fs : List String) (e : PlanEntry),
      ¬ (e.current_path ≠ "" ∧ e.current_path ∈ fs) →
      ¬ (e.original_path ≠ "" ∧ e.original_path ∈ fs) →
      (root ++ "/" ++ e.filename) ∈ fs →
      sync_source fs e root = some (root ++ "/" ++ e.filename)) ∧
    (∀ (fs : List String) (e : PlanEntry) (m : MoveRec),
      (sync_step moveFail root names fs e).2 = some m →
      sync_source fs e root = some m.from_path ∧ m.file_id = e.file_id) ∧
    (∀ (fs : List String) (e : PlanEntry) (rest : List PlanEntry),
      sync_source fs e root = none →
      sync_files_to_folders moveFail root names fs (e :: rest) =
        sync_files_to_folders moveFail root names fs rest) ∧
    (∀ (fs : List String) (plan : List PlanEntry),
      (sync_files_to_folders moveFail root names fs plan).1 =
        applyMoves fs (sync_files_to_folders moveFail root names fs plan).2) := by
  refine ⟨?_, ?_, ?_, ?_, ?_, ?_⟩
  · intro fs e h1 h2
    unfold sync_source
    rw [if_pos ⟨h1, h2⟩]
  · intro fs e h0 h1 h2
    unfold sync_source
    rw [if_neg h0, if_pos ⟨h1, h2⟩]
  · intro fs e h0 h1 h2
    unfold sync_source
    rw [if_neg h0, if_neg h1, if_pos h2]
  · intro fs e m h
    unfold sync_step at h
    cases hsrc : sync_source fs e root with
    | none => simp [hsrc] at h
    | some source =>
        simp only [hsrc] at h
        by_cases heq : source = root ++ "/" ++ lookup_name names e.cluster_id ++ "/" ++ e.filename
        · simp [heq] at h
        · simp only [if_neg heq] at h
          by_cases hmf : moveFail source (sync_target fs
              (root ++ "/" ++ lookup_name names e.cluster_id) e.filename) = true
          · simp [hmf] at h
          · simp only [hmf, Bool.false_eq_true, if_false] at h
            have hminj : m = ⟨e.file_id, source, sync_target fs
                (root ++ "/" ++ lookup_name names e.cluster_id) e.filename⟩ :=
              (Option.some.inj h).symm
            rw [hminj]
            exact ⟨rfl, rfl⟩
  · intro fs e rest hsrc
    have hstep : sync_step moveFail root names fs e = (fs, none) := by
      unfold sync_step
      rw [hsrc]
    show (let step := sync_step moveFail root names fs e
          let restRes := sync_files_to_folders moveFail root names step.1 rest
          (restRes.1,
            match step.2 with
            | some m => m :: restRes.2
            | none => restRes.2)) = _
    rw [hstep]
  · intro fs plan
    induction plan generalizing fs with
    | nil => rfl
    | cons e rest ih =>
        have hunfold : sync_files_to_folders moveFail root names fs (e :: rest) =
            ((sync_files_to_folders moveFail root names
                (sync_step moveFail root names fs e).1 rest).1,
              match (sync_step moveFail root names fs e).2 with
              | some m => m :: (sync_files_to_folders moveFail root names
                  (sync_step moveFail root names fs e).1 rest).2
              | none => (sync_files_to_folders moveFail root names
                  (sync_step moveFail root names fs e).1 rest).2) := rfl
        rw [hunfold]
        cases hm : (sync_step moveFail root names fs e).2 with
        | none =>
            have hfs := sync_step_none_fs moveFail root names fs e hm
            simp only [hm, hfs]
            exact ih fs
        | some m =>
            have hfs := sync_step_some_fs moveFail root names fs e m hm
            simp only [hm, hfs, applyMoves]
            exact ih _

/-- Witness for `c8_sync_files_to_folders_spec` at concrete inputs. -/
theorem c8_sync_witness :
    c8entry.current_path ≠ "" ∧ c8entry.current_path ∈ ["r/x.txt"] ∧
    sync_source ["r/x.txt"] c8entry "r" = some c8entry.current_path ∧
    (sync_files_to_folders (fun _ _ => false) "r" [(0, "A")] ["r/x.txt"] [c8entry]).1 =
      applyMoves ["r/x.txt"]
        (sync_files_to_folders (fun _ _ => false) "r" [(0, "A")] ["r/x.txt"] [c8entry]).2 :=
  ⟨by decide, by decide,
    (c8_sync_files_to_folders_spec (fun _ _ => false) "r" [(0, "A")]).1
      ["r/x.txt"] c8entry (by decide) (by decide),
    (c8_sync_files_to_folders_spec (fun _ _ => false) "r" [(0, "A")]).2.2.2.2.2
      ["r/x.txt"] [c8entry]⟩

lemma sched_step_none_busy (s : SchedState) (ev : SchedEvent)
    (h : (sched_step s ev).2 = none) :
    (sched_step s ev).1.busyUntil = s.busyUntil ∧
    (sched_step s ev).1.lastCompleted = s.lastCompleted := by
  cases ev with
  | req t => exact ⟨rfl, rfl⟩
  | fire t dur =>
      simp only [sched_step] at h ⊢
      by_cases hd : s.deadline = some t
      · rw [if_pos hd] at h ⊢
        by_cases hp : s.pending = true
        · simp only [hp, if_pos] at h ⊢
          by_cases hc : s.lastCompleted > 0 ∧
              max t s.busyUntil - s.lastCompleted < COOLDOWN_SECONDS
          · rw [if_pos hc] at h ⊢
            constructor <;> trivial
          · rw [if_neg hc] at h
            simp at h
        · simp only [hp] at h ⊢
          simp only [Bool.false_eq_true, if_false]
          constructor <;> trivial
      · rw [if_neg hd] at h ⊢
        constructor <;> trivial

lemma sched_step_some_facts (s : SchedState) (ev : SchedEvent) (r : ℚ × ℚ)
    (hdur : 0 ≤ evDur ev) (h : (sched_step s ev).2 = some r) :
    s.busyUntil ≤ r.1 ∧ r.1 ≤ r.2 ∧
    (sched_step s ev).1.busyUntil = r.2 ∧
    (sched_step s ev).1.lastCompleted = r.2 ∧
    (sched_step s ev).1.deadline = none ∧
    (s.lastCompleted > 0 → COOLDOWN_SECONDS ≤ r.1 - s.lastCompleted) := by
  cases ev with
  | req t => simp [sched_step] at h
  | fire t dur =>
      have hdur' : (0:ℚ) ≤ dur := hdur
      simp only [sched_step] at h ⊢
      by_cases hd : s.deadline = some t
      · rw [if_pos hd] at h ⊢
        by_cases hp : s.pending = true
        · simp only [hp, if_pos] at h ⊢
          by_cases hc : s.lastCompleted > 0 ∧
              max t s.busyUntil - s.lastCompleted < COOLDOWN_SECONDS
          · rw [if_pos hc] at h
            simp at h
          · rw [if_neg hc] at h ⊢
            have hr : r = (max t s.busyUntil, max t s.busyUntil + dur) :=
              (Option.some.inj h).symm
            rw [hr]
            refine ⟨?_, ?_, rfl, rfl, rfl, ?_⟩
            · show s.busyUntil ≤ max t s.busyUntil
              exact le_max_right _ _
            · show max t s.busyUntil ≤ max t s.busyUntil + dur
              linarith
            · intro hlc
              show COOLDOWN_SECONDS ≤ max t s.busyUntil - s.lastCompleted
              by_contra hcon
              push_neg at hcon
              exact hc ⟨hlc, by linarith⟩
        · simp only [hp] at h
          simp only [Bool.false_eq_true, if_false] at h
          simp at h
      · rw [if_neg hd] at h
        simp at h

lemma sched_run_chain (evs : List SchedEvent) :
    ∀ s : SchedState, (∀ ev ∈ evs, 0 ≤ evDur ev) →
      RunsChain s.busyUntil (sched_run s evs).2 := by
  induction evs with
  | nil =>
      intro s _
      exact trivial
  | cons ev rest ih =>
      intro s hdur
      have hu : (sched_run s (ev :: rest)).2 =
          (match (sched_step s ev).2 with
           | some r => r :: (sched_run (sched_step s ev).1 rest).2
           | none => (sched_run (sched_step s ev).1 rest).2) := rfl
      rw [hu]
      cases hstep : (sched_step s ev).2 with
      | none =>
          simp only []
          obtain ⟨hb, _⟩ := sched_step_none_busy s ev hstep
          have := ih (sched_step s ev).1 (fun e he => hdur e (List.mem_cons_of_mem ev he))
          rw [hb] at this
          exact this
      | some r =>
          simp only []
          obtain ⟨h1, h2, h3, _, _, _⟩ := sched_step_some_facts s ev r
            (hdur ev (List.mem_cons_self ev rest)) hstep
          refine ⟨h1, h2, ?_⟩
          have := ih (sched_step s ev).1 (fun e he => hdur e (List.mem_cons_of_mem ev he))
          rw [h3] at this
          exact this

/-- After a run completing at or after `T + COOLDOWN_SECONDS`, while every
further `request()` arrives before `T + COOLDOWN_SECONDS`, no further
recluster can run: any effective fire's deadline is below
`T + COOLDOWN_SECONDS + DEBOUNCE_DELAY` and hence hits the cooldown. -/
lemma sched_run_no_run_after (T : ℚ) (hT : 0 < T) (evs : List SchedEvent) :
    ∀ s : SchedState,
      T + COOLDOWN_SECONDS ≤ s.lastCompleted →
      s.busyUntil ≤ s.lastCompleted →
      (∀ d, s.deadline = some d → d < T + COOLDOWN_SECONDS + DEBOUNCE_DELAY) →
      (∀ t, SchedEvent.req t ∈ evs → t < T + COOLDOWN_SECONDS) →
      (sched_run s evs).2 = [] := by
  have hcool : COOLDOWN_SECONDS = (5:ℚ) := rfl
  have hdeb : DEBOUNCE_DELAY = (2:ℚ) := rfl
  induction evs with
  | nil =>
      intro s _ _ _ _
      rfl
  | cons ev rest ih =>
      intro s hlc hbusy hdl hreq
      have hrest : ∀ t, SchedEvent.req t ∈ rest → t < T + COOLDOWN_SECONDS :=
        fun t ht => hreq t (List.mem_cons_of_mem ev ht)
      have hu : (sched_run s (ev :: rest)).2 =
          (match (sched_step s ev).2 with
           | some r => r :: (sched_run (sched_step s ev).1 rest).2
           | none => (sched_run (sched_step s ev).1 rest).2) := rfl
      cases ev with
      | req t =>
          have hstep : sched_step s (.req t) =
              ({ s with pending := true, deadline := some (t + DEBOUNCE_DELAY) }, none) := rfl
          rw [hu, hstep]
          show (sched_run { s with
              pending := true
              deadline := some (t + DEBOUNCE_DELAY) } rest).2 = []
          apply ih
          · exact hlc
          · exact hbusy
          · intro d hd
            have ht : t < T + COOLDOWN_SECONDS := hreq t (List.mem_cons_self _ _)
            have hde : d = t + DEBOUNCE_DELAY := (Option.some.inj hd).symm
            rw [hde]
            linarith
          · exact hrest
      | fire t dur =>
          by_cases hd : s.deadline = some t
          · by_cases hp : s.pending = true
            · have hskip : s.lastCompleted > 0 ∧
                  max t s.busyUntil - s.lastCompleted < COOLDOWN_SECONDS := by
                constructor
                · linarith
                · rcases le_total t s.busyUntil with hle | hle
                  · rw [max_eq_right hle]
                    linarith
                  · rw [max_eq_left hle]
                    have hdbound := hdl t hd
                    linarith
              have hstep : sched_step s (.fire t dur) =
                  ({ s with pending := false, deadline := none }, none) := by
                simp only [sched_step]
                rw [if_pos hd]
                simp only [hp, if_pos]
                rw [if_pos hskip]
              rw [hu, hstep]
              show (sched_run { s with
                  pending := false
                  deadline := none } rest).2 = []
              apply ih
              · exact hlc
              · exact hbusy
              · intro d hcon
                simp at hcon
              · exact hrest
            · have hstep : sched_step s (.fire t dur) =
                  ({ s with deadline := none }, none) := by
                simp only [sched_step]
                rw [if_pos hd]
                simp only [hp]
                simp only [Bool.false_eq_true, if_false]
              rw [hu, hstep]
              show (sched_run { s with deadline := none } rest).2 = []
              apply ih
              · exact hlc
              · exact hbusy
              · intro d hcon
                simp at hcon
              · exact hrest
          · have hstep : sched_step s (.fire t dur) = (s, none) := by
              simp only [sched_step]
              rw [if_neg hd]
            rw [hu, hstep]
            show (sched_run s rest).2 = []
            exact ih s hlc hbusy hdl hrest

/-- A valid trace carries only nonnegative run durations. -/
lemma validTrace_durs : ∀ (t0 : ℚ) (evs : List SchedEvent), ValidTrace t0 evs →
    ∀ ev ∈ evs, 0 ≤ evDur ev := by
  intro t0 evs
  induction evs generalizing t0 with
  | nil =>
      intro _ ev hev
      simp at hev
  | cons e rest ih =>
      intro hv ev hev
      obtain ⟨_, hd, hrest⟩ := hv
      rcases List.mem_cons.mp hev with h | h
      · rw [h]; exact hd
      · exact ih (evTime e) hrest ev h

/-- Count lemma: starting from a completed run at `T` (with the lock free by
`T` and any armed deadline below `T + 7`), a burst of requests all arriving
before `T + COOLDOWN_SECONDS` yields at most one further recluster run. -/
lemma sched_run_cooldown_count (T : ℚ) (hT : 0 < T) (evs : List SchedEvent) :
    ∀ s : SchedState,
      s.lastCompleted = T →
      s.busyUntil ≤ T →
      (∀ d, s.deadline = some d → d < T + COOLDOWN_SECONDS + DEBOUNCE_DELAY) →
      (∀ t, SchedEvent.req t ∈ evs → t < T + COOLDOWN_SECONDS) →
      (∀ ev ∈ evs, 0 ≤ evDur ev) →
      (sched_run s evs).2.length ≤ 1 := by
  have hcool : COOLDOWN_SECONDS = (5:ℚ) := rfl
  have hdeb : DEBOUNCE_DELAY = (2:ℚ) := rfl
  induction evs with
  | nil =>
      intro s _ _ _ _ _
      simp [sched_run]
  | cons ev rest ih =>
      intro s hlc hbusy hdl hreq hdur
      have hrest : ∀ t, SchedEvent.req t ∈ rest → t < T + COOLDOWN_SECONDS :=
        fun t ht => hreq t (List.mem_cons_of_mem ev ht)
      have hdurrest : ∀ e ∈ rest, 0 ≤ evDur e :=
        fun e he => hdur e (List.mem_cons_of_mem ev he)
      have hu : (sched_run s (ev :: rest)).2 =
          (match (sched_step s ev).2 with
           | some r => r :: (sched_run (sched_step s ev).1 rest).2
           | none => (sched_run (sched_step s ev).1 rest).2) := rfl
      cases ev with
      | req t =>
          have hstep : sched_step s (.req t) =
              ({ s with pending := true, deadline := some (t + DEBOUNCE_DELAY) }, none) := rfl
          rw [hu, hstep]
          show (sched_run { s with
              pending := true
              deadline := some (t + DEBOUNCE_DELAY) } rest).2.length ≤ 1
          apply ih
          · exact hlc
          · exact hbusy
          · intro d hd
            have ht : t < T + COOLDOWN_SECONDS := hreq t (List.mem_cons_self _ _)
            have hde : d = t + DEBOUNCE_DELAY := (Option.some.inj hd).symm
            rw [hde]
            linarith
          · exact hrest
          · exact hdurrest
      | fire t dur =>
          have hdur0 : (0:ℚ) ≤ dur := hdur (.fire t dur) (List.mem_cons_self _ _)
          by_cases hd : s.deadline = some t
          · by_cases hp : s.pending = true
            · by_cases hc : s.lastCompleted > 0 ∧
                  max t s.busyUntil - s.lastCompleted < COOLDOWN_SECONDS
              · have hstep : sched_step s (.fire t dur) =
                    ({ s with pending := false, deadline := none }, none) := by
                  simp only [sched_step]
                  rw [if_pos hd]
                  simp only [hp, if_pos]
                  rw [if_pos hc]
                rw [hu, hstep]
                show (sched_run { s with
                    pending := false
                    deadline := none } rest).2.length ≤ 1
                apply ih
                · exact hlc
                · exact hbusy
                · intro d hcon
                  simp at hcon
                · exact hrest
                · exact hdurrest
              · have hstep : sched_step s (.fire t dur) =
                    ({ s with pending := false
                              deadline := none
                              lastCompleted := max t s.busyUntil + dur
                              busyUntil := max t s.busyUntil + dur },
                      some (max t s.busyUntil, max t s.busyUntil + dur)) := by
                  simp only [sched_step]
                  rw [if_pos hd]
                  simp only [hp, if_pos]
                  rw [if_neg hc]
                rw [hu, hstep]
                show ((max t s.busyUntil, max t s.busyUntil + dur) ::
                    (sched_run { s with
                        pending := false
                        deadline := none
                        lastCompleted := max t s.busyUntil + dur
                        busyUntil := max t s.busyUntil + dur } rest).2).length ≤ 1
                have hte : T + COOLDOWN_SECONDS ≤ max t s.busyUntil + dur := by
                  push_neg at hc
                  have h5 : COOLDOWN_SECONDS ≤ max t s.busyUntil - s.lastCompleted := by
                    apply hc
                    rw [hlc]
                    exact hT
                  rw [hlc] at h5
                  linarith
                have hnone : (sched_run { s with
                    pending := false
                    deadline := none
                    lastCompleted := max t s.busyUntil + dur
                    busyUntil := max t s.busyUntil + dur } rest).2 = [] := by
                  apply sched_run_no_run_after T hT rest
                  · exact hte
                  · exact le_refl _
                  · intro d hcon
                    simp at hcon
                  · exact hrest
                rw [hnone]
                simp
            · have hstep : sched_step s (.fire t dur) =
                  ({ s with deadline := none }, none) := by
                simp only [sched_step]
                rw [if_pos hd]
                simp only [hp]
                simp only [Bool.false_eq_true, if_false]
              rw [hu, hstep]
              show (sched_run { s with deadline := none } rest).2.length ≤ 1
              apply ih
              · exact hlc
              · exact hbusy
              · intro d hcon
                simp at hcon
              · exact hrest
              · exact hdurrest
          · have hstep : sched_step s (.fire t dur) = (s, none) := by
              simp only [sched_step]
              rw [if_neg hd]
            rw [hu, hstep]
            show (sched_run s rest).2.length ≤ 1
            exact ih s hlc hbusy hdl hrest hdurrest

/-- C7: scheduler cooldown.  For every execution of the recluster scheduler
starting right after a run completed at time `T` (the lock released by `T`
and any armed debounce deadline below `T + cooldown + delay`), along any
valid event trace whose `request()` calls all arrive less than
`COOLDOWN_SECONDS = 5` seconds after `T`, at most one additional full
recluster runs, and the runs performed are serialized (each starts no
earlier than the previous one's end): the scheduler never runs two full
reclusters concurrently. -/
theorem c7_scheduler_cooldown (T : ℚ) (s : SchedState) (evs : List SchedEvent)
    (hT : 0 < T)
    (hlc : s.lastCompleted = T)
    (hbusy : s.busyUntil ≤ T)
    (hdl : ∀ d, s.deadline = some d → d < T + COOLDOWN_SECONDS + DEBOUNCE_DELAY)
    (hvalid : ValidTrace T evs)
    (hreq : ∀ t, SchedEvent.req t ∈ evs → t < T + COOLDOWN_SECONDS) :
    (sched_run s evs).2.length ≤ 1 ∧
    RunsChain s.busyUntil (sched_run s evs).2 := by
  have hdur : ∀ ev ∈ evs, 0 ≤ evDur ev := validTrace_durs T evs hvalid
  exact ⟨sched_run_cooldown_count T hT evs s hlc hbusy hdl hreq hdur,
    sched_run_chain evs s hdur⟩

theorem c7_scheduler_cooldown_witness :
    (sched_run ⟨false, none, 10, 10⟩
      [SchedEvent.req 11, SchedEvent.req 12, SchedEvent.fire 14 1]).2.length ≤ 1 ∧
    RunsChain (10:ℚ) (sched_run ⟨false, none, 10, 10⟩
      [SchedEvent.req 11, SchedEvent.req 12, SchedEvent.fire 14 1]).2 :=
  c7_scheduler_cooldown 10 ⟨false, none, 10, 10⟩
    [SchedEvent.req 11, SchedEvent.req 12, SchedEvent.fire 14 1]
    (by norm_num) rfl (le_refl _)
    (fun d hd => by simp at hd)
    (show (10:ℚ) ≤ 11 ∧ (0:ℚ) ≤ 0 ∧ (11:ℚ) ≤ 12 ∧ (0:ℚ) ≤ 0 ∧
        (12:ℚ) ≤ 14 ∧ (0:ℚ) ≤ 1 ∧ True by norm_num)
    (by
      intro t ht
      simp only [List.mem_cons, List.mem_singleton] at ht
      rcases ht with h | h | h
      · rw [show t = (11:ℚ) from by injection h]
        norm_num [COOLDOWN_SECONDS]
      · rw [show t = (12:ℚ) from by injection h]
        norm_num [COOLDOWN_SECONDS]
      · exact absurd h (by simp))
